import Mathlib

/-!
# Verification of the EECS678 Project 2 scheduler (libpriqueue + libscheduler)

Shallow embedding of `src/libpriqueue/libpriqueue.c` and
`src/libscheduler/libscheduler.c`.

Modelling conventions:
* The linked list of `node_t` cells rooted at `priqueue_t::root` is embedded as
  a `List (node_t α)`; the payload pointer `void *data` becomes the `data`
  field of `node_t α`.  The comparer stored in the struct is passed explicitly
  to each operation (the C code only ever reads it through the struct).
* Jobs live in an arena: addresses are natural numbers, `jobs : Nat → job_t`
  is the heap and `nextAddr` the bump allocator; `malloc` in
  `scheduler_new_job` returns the fresh address `nextAddr`.  The scheduler's
  queue is a list of addresses and the core table a list of optional
  addresses, so that aliasing between `core_arr` and the queue is modelled
  exactly as in C.
* The C job fields are `float`/`int` holding integral values (all inputs are
  `int`); they are embedded as `Int`.  The running statistic sums are `float`
  accumulating integral summands and are embedded as `ℚ`.
* `core_id` parameters are embedded as `Nat` (the driver contract requires
  them to be valid nonnegative indices).
-/

/-- One cell of the singly linked list used by `libpriqueue`
(`node_t` in `libpriqueue.h`): it owns a payload pointer `data`.
The `next` pointer is represented by list structure. -/
structure node_t (α : Type) where
  data : α
deriving DecidableEq, Repr

/-- The scan-and-insert loop shared by `priqueue_offer` (libpriqueue.c lines
63-85): walk the chain while the predicate holds of the current cell, insert
the new cell before the first cell for which it fails, and return the new
list together with the zero-based index where the new element landed. -/
def scanInsert {α : Type} (p : α → Bool) (x : α) : List α → List α × Nat
  | [] => ([x], 0)
  | a :: rest =>
    if p a then
      let r := scanInsert p x rest
      (a :: r.1, r.2 + 1)
    else
      (x :: a :: rest, 0)

/-- `priqueue_offer` (libpriqueue.c lines 53-91): insert a new node holding
`ptr`, scanning while `comparer(temp->data, node->data) < 0`; returns the
updated queue and the zero-based index of the new node. -/
def priqueue_offer {α : Type} (cmp : α → α → Int) (q : List (node_t α)) (ptr : α) :
    List (node_t α) × Nat :=
  scanInsert (fun n => cmp n.data ptr < 0) (node_t.mk ptr) q

/-- `priqueue_peek` (libpriqueue.c lines 102-104): data of the head node, or
NULL (`none`) when empty. -/
def priqueue_peek {α : Type} (q : List (node_t α)) : Option α :=
  match q with
  | [] => none
  | n :: _ => some n.data

/-- `priqueue_poll` (libpriqueue.c lines 115-142): remove the head node and
return its data, or NULL (`none`) when empty. -/
def priqueue_poll {α : Type} (q : List (node_t α)) : List (node_t α) × Option α :=
  match q with
  | [] => ([], none)
  | n :: rest => (rest, some n.data)

/-- `priqueue_at` (libpriqueue.c lines 154-169): the `index`'th node's data,
or NULL (`none`) if `size <= index`. -/
def priqueue_at {α : Type} (q : List (node_t α)) (index : Nat) : Option α :=
  match q, index with
  | [], _ => none
  | n :: _, 0 => some n.data
  | _ :: rest, i + 1 => priqueue_at rest i

/-- The removal scan of `priqueue_remove` (libpriqueue.c lines 194-226): every
node whose data the COMPARER reports equal (`comparer(temp->data, ptr) == 0`)
is unlinked; returns the remaining list and the number of nodes removed.
Note the C code uses the comparer here even though its own doc comment
(lines 172-180) demands raw identity (`==`) comparison. -/
def priqueue_removeAux {α : Type} (cmp : α → α → Int) (ptr : α) :
    List (node_t α) → List (node_t α) × Nat
  | [] => ([], 0)
  | n :: rest =>
    let r := priqueue_removeAux cmp ptr rest
    if cmp n.data ptr = 0 then (r.1, r.2 + 1) else (n :: r.1, r.2)

/-- `priqueue_remove` (libpriqueue.c lines 181-231). -/
def priqueue_remove {α : Type} (cmp : α → α → Int) (q : List (node_t α)) (ptr : α) :
    List (node_t α) × Nat :=
  priqueue_removeAux cmp ptr q

/-- The unlink walk of `priqueue_remove_at` (libpriqueue.c lines 251-267). -/
def removeAtAux {α : Type} : List (node_t α) → Nat → List (node_t α) × Option (node_t α)
  | [], _ => ([], none)
  | n :: rest, 0 => (rest, some n)
  | n :: rest, i + 1 =>
    let r := removeAtAux rest i
    (n :: r.1, r.2)

/-- `priqueue_remove_at` (libpriqueue.c lines 243-270): NULL (`none`) without
mutation when `size <= index`; otherwise unlink the `index`'th node.  The C
function returns `temp` — the NODE — not `temp->data`, so the embedded result
is an `Option (node_t α)`, unlike `priqueue_at`/`priqueue_poll` which return
the payload. -/
def priqueue_remove_at {α : Type} (q : List (node_t α)) (index : Nat) :
    List (node_t α) × Option (node_t α) :=
  if q.length ≤ index then (q, none) else removeAtAux q index

/-- `priqueue_size` (libpriqueue.c lines 279-281). -/
def priqueue_size {α : Type} (q : List (node_t α)) : Nat := q.length

/-- A pointer value as handled by the store/scheduler composition: the
address of a `job_t`, or the address of a `node_t` cell, recording the
pointer held in its `data` field.  The distinct constructors model that a
node allocated by `priqueue_offer` never aliases a job. -/
inductive CPtr where
  | jobPtr (a : Nat)
  | nodePtr (p : CPtr)
deriving DecidableEq, Repr

/-- The store mutation performed by `scheduler_quantum_expired`
(libscheduler.c lines 447-455) at the C pointer level, given the index `i`
at which the id-search loop found the expired core's job (the search reads
payloads through `priqueue_at` and is exact).  `priqueue_remove_at` unlinks
the cell at `i` but returns the NODE pointer (libpriqueue.c line 269), and
line 452 re-offers THAT pointer — `nodePtr` of the removed cell — as a
payload under the RR comparer (constant -1, so it lands at the back).  The
store `job->core_number = -1` (line 450) addresses memory past the node
allocation, so it has no defined effect on any job record and has no
counterpart here; the subsequent assignment scan (lines 457-469)
dereferences the node payload the same undefined way, so the modelled step
ends with the store content, which already decides where the evicted job
ended up. -/
def quantumRequeuePtr (q : List (node_t CPtr)) (i : Nat) : List (node_t CPtr) :=
  match priqueue_remove_at q i with
  | (q1, none) => q1
  | (q1, some n) => (priqueue_offer (fun _ _ => (-1 : Int)) q1 (CPtr.nodePtr n.data)).1

/-! ## The scheduler (libscheduler.c) -/

/-- `scheme_t` from libscheduler.h. -/
inductive scheme_t where
  | FCFS | SJF | PSJF | PRI | PPRI | RR
deriving DecidableEq, Repr

/-- `job_t` (libscheduler.c lines 35-44).  The C fields `arrival_time`,
`running_time`, `remaining_time` are `float` holding integral values; all
fields are embedded as `Int`.  `-1` is the sentinel for "none"/"unset". -/
structure job_t where
  id : Int
  arrival_time : Int
  running_time : Int
  remaining_time : Int
  priority : Int
  core_number : Int
  start_time : Int
  last_updated_time : Int
deriving DecidableEq, Repr

/-- `fcfs` comparer (libscheduler.c lines 103-107): always -1. -/
def fcfs (_a _b : job_t) : Int := -1

/-- `sjf` comparer (libscheduler.c lines 118-128). -/
def sjf (a b : job_t) : Int :=
  if a.running_time ≠ b.running_time then a.running_time - b.running_time
  else a.arrival_time - b.arrival_time

/-- `psjf` comparer (libscheduler.c lines 139-149). -/
def psjf (a b : job_t) : Int :=
  if a.remaining_time ≠ b.remaining_time then a.remaining_time - b.remaining_time
  else a.arrival_time - b.arrival_time

/-- `pri` comparer (libscheduler.c lines 160-170). -/
def pri (a b : job_t) : Int :=
  if a.priority ≠ b.priority then a.priority - b.priority
  else a.arrival_time - b.arrival_time

/-- `ppri` comparer (libscheduler.c lines 181-183): delegates to `pri`. -/
def ppri (a b : job_t) : Int := pri a b

/-- `rr` comparer (libscheduler.c lines 194-198): always -1. -/
def rr (_a _b : job_t) : Int := -1

/-- The comparer selected by `scheduler_start_up` (libscheduler.c lines
225-247). -/
def comparerOf : scheme_t → job_t → job_t → Int
  | scheme_t.FCFS => fcfs
  | scheme_t.SJF => sjf
  | scheme_t.PSJF => psjf
  | scheme_t.PRI => pri
  | scheme_t.PPRI => ppri
  | scheme_t.RR => rr

/-- The scheduler's global state (libscheduler.c lines 50-92): the job arena
(`jobs`, `nextAddr`), the priority queue of live job addresses, the core
table, the selected scheme and the four statistic accumulators. -/
structure SchedState where
  jobs : Nat → job_t
  nextAddr : Nat
  queue : List Nat
  core_arr : List (Option Nat)
  scheme : scheme_t
  total_waiting_time : ℚ
  total_response_time : ℚ
  total_turnaround_time : ℚ
  total_finished_jobs : Nat

/-- `core_arr[i]` (`none` also when out of range; the driver contract keeps
indices in range). -/
def getSlot (s : SchedState) (i : Nat) : Option Nat :=
  s.core_arr.getD i none

/-- Overwrite the job record at address `a` (a store through a `job_t *`). -/
def setJob (s : SchedState) (a : Nat) (j : job_t) : SchedState :=
  { s with jobs := Function.update s.jobs a j }

/-- Dummy record used to keep slot dereferences total; never reached under
the all-cores-busy hypotheses of the theorems below (in C the corresponding
access would dereference NULL). -/
def nullJob : job_t := ⟨-1, -1, -1, -1, -1, -1, -1, -1⟩

/-- `*core_arr[i]` where the C code knows the slot is non-NULL. -/
def slotJob (s : SchedState) (i : Nat) : job_t :=
  match getSlot s i with
  | some a => s.jobs a
  | none => nullJob

/-- The fresh job record built by `scheduler_new_job` (libscheduler.c lines
278-287). -/
def mkJob (job_number time running_time priority : Int) : job_t :=
  { id := job_number
    arrival_time := time
    running_time := running_time
    remaining_time := running_time
    priority := priority
    core_number := -1
    start_time := -1
    last_updated_time := -1 }

/-- One iteration of the PSJF re-synchronisation loop (libscheduler.c lines
293-294): `remaining_time -= time - last_updated_time; last_updated_time = time`. -/
def psjfUpdateJob (time : Int) (j : job_t) : job_t :=
  { j with remaining_time := j.remaining_time - (time - j.last_updated_time)
           last_updated_time := time }

/-- The body of the PSJF re-synchronisation loop (libscheduler.c lines
292-295): skip empty slots, update the job on a busy slot. -/
def psjfBody (time : Int) (st : SchedState) (i : Nat) : SchedState :=
  match getSlot st i with
  | none => st
  | some a => setJob st a (psjfUpdateJob time (st.jobs a))

/-- The PSJF re-synchronisation loop over all busy cores (libscheduler.c
lines 291-296). -/
def psjfUpdate (s : SchedState) (time : Int) : SchedState :=
  (List.range s.core_arr.length).foldl (psjfBody time) s

/-- `priqueue_offer` as called by the scheduler: the queue holds job
addresses and the comparer dereferences them through the arena. -/
def offerAux (cmp : job_t → job_t → Int) (jobs : Nat → job_t) (x : Nat)
    (q : List Nat) : List Nat × Nat :=
  scanInsert (fun a => cmp (jobs a) (jobs x) < 0) x q

/-- The first-fit scan for an empty core slot (libscheduler.c lines 303-311),
carrying the index of the head of the remaining sublist. -/
def firstEmptyAux : List (Option Nat) → Nat → Option Nat
  | [], _ => none
  | none :: _, k => some k
  | some _ :: rest, k => firstEmptyAux rest (k + 1)

/-- One iteration of the PSJF victim scan (libscheduler.c lines 320-325):
the running carry is `(longestTimeRemaining, core_to_run_on)` and only a
strictly larger remaining time moves the victim. -/
def psjfScanStep (s : SchedState) (mp : Int × Nat) (i : Nat) : Int × Nat :=
  if (slotJob s i).remaining_time > mp.1 then ((slotJob s i).remaining_time, i)
  else mp

/-- The PSJF victim scan (libscheduler.c lines 318-325), initialised from
core 0. -/
def psjfScan (s : SchedState) : Int × Nat :=
  (List.range s.core_arr.length).foldl (psjfScanStep s) ((slotJob s 0).remaining_time, 0)

/-- One iteration of the PPRI victim scan (libscheduler.c lines 344-352):
the victim also moves when the priority EQUALS the current maximum and the
candidate's `start_time` is strictly later than the current victim's. -/
def ppriScanStep (s : SchedState) (mp : Int × Nat) (i : Nat) : Int × Nat :=
  if (slotJob s i).priority = mp.1 ∧ (slotJob s i).start_time > (slotJob s mp.2).start_time then
    ((slotJob s i).priority, i)
  else if (slotJob s i).priority > mp.1 then
    ((slotJob s i).priority, i)
  else mp

/-- The PPRI victim scan (libscheduler.c lines 342-353), initialised from
core 0. -/
def ppriScan (s : SchedState) : Int × Nat :=
  (List.range s.core_arr.length).foldl (ppriScanStep s) ((slotJob s 0).priority, 0)

/-- `scheduler_start_up` (libscheduler.c lines 214-254). -/
def scheduler_start_up (cores : Nat) (scheme : scheme_t) : SchedState :=
  { jobs := fun _ => nullJob
    nextAddr := 0
    queue := []
    core_arr := List.replicate cores none
    scheme := scheme
    total_waiting_time := 0
    total_response_time := 0
    total_turnaround_time := 0
    total_finished_jobs := 0 }

/-- The first phase of `scheduler_new_job` (libscheduler.c lines 278-299):
allocate and initialise the job record, run the PSJF re-synchronisation loop
if the scheme is PSJF, and offer the job into the queue.  Returns the
resulting state and the landing index. -/
def scheduler_new_job_phase1 (s : SchedState)
    (job_number time running_time priority : Int) : SchedState × Nat :=
  let a := s.nextAddr
  let s1 : SchedState :=
    { s with jobs := Function.update s.jobs a (mkJob job_number time running_time priority)
             nextAddr := a + 1 }
  let s2 := if s1.scheme = scheme_t.PSJF then psjfUpdate s1 time else s1
  let r := offerAux (comparerOf s2.scheme) s2.jobs a s2.queue
  ({ s2 with queue := r.1 }, r.2)

/-- The eviction-and-assignment block shared by the PSJF and PPRI preemption
branches (libscheduler.c lines 327-334 and 355-362): the victim on core `v`
gets `core_number = -1` (and `start_time` reset to `-1` if it equals the
preemption time), the new job at address `a` is started on core `v`. -/
def preemptAssign (s : SchedState) (a v : Nat) (time : Int) : SchedState × Int :=
  let e := (getSlot s v).getD 0
  let s1 := setJob s e
    { s.jobs e with core_number := -1
                    start_time := if (s.jobs e).start_time = time then -1
                                  else (s.jobs e).start_time }
  let s2 := setJob s1 a
    { s1.jobs a with core_number := (v : Int), start_time := time, last_updated_time := time }
  ({ s2 with core_arr := s2.core_arr.set v (some a) }, (v : Int))

/-- The second phase of `scheduler_new_job` (libscheduler.c lines 301-373),
given the post-offer state `s1`, the new job's address `a` and its landing
index: first-fit assignment to an empty core, otherwise the PSJF/PPRI
preemption branches, otherwise no scheduling change. -/
def scheduler_new_job_phase2 (s1 : SchedState) (a : Nat) (index : Nat)
    (time : Int) : SchedState × Int :=
  if index < s1.core_arr.length then
    match firstEmptyAux s1.core_arr 0 with
    | some i =>
      let s2 := setJob s1 a
        { s1.jobs a with core_number := (i : Int), start_time := time, last_updated_time := time }
      ({ s2 with core_arr := s2.core_arr.set i (some a) }, (i : Int))
    | none =>
      match s1.scheme with
      | scheme_t.PSJF =>
        let scan := psjfScan s1
        if scan.1 > (s1.jobs a).remaining_time then preemptAssign s1 a scan.2 time
        else (s1, -1)
      | scheme_t.PPRI =>
        let scan := ppriScan s1
        if scan.1 > (s1.jobs a).priority then preemptAssign s1 a scan.2 time
        else (s1, -1)
      | _ => (s1, -1)
  else (s1, -1)

/-- `scheduler_new_job` (libscheduler.c lines 277-374). -/
def scheduler_new_job (s : SchedState)
    (job_number time running_time priority : Int) : SchedState × Int :=
  let p := scheduler_new_job_phase1 s job_number time running_time priority
  scheduler_new_job_phase2 p.1 s.nextAddr p.2 time

/-- The statistics fold of `scheduler_job_finished` (libscheduler.c lines
403-406). -/
def foldStats (s : SchedState) (j : job_t) (time : Int) : SchedState :=
  { s with
    total_waiting_time := s.total_waiting_time + ((time : ℚ) - j.arrival_time - j.running_time)
    total_response_time := s.total_response_time + ((j.start_time : ℚ) - j.arrival_time)
    total_turnaround_time := s.total_turnaround_time + ((time : ℚ) - j.arrival_time)
    total_finished_jobs := s.total_finished_jobs + 1 }

/-- The removal loop of `scheduler_job_finished` (libscheduler.c lines
396-409) as a walk over the queue: every address whose job id matches is
unlinked and collected (in scan order).  The C loop increments `i` after
`priqueue_remove_at(&queue, i)` shrinks the queue, so the element
immediately FOLLOWING a removed one is never examined; the `c :: rest2`
branch mirrors that skip. -/
def finishRemoveAux (jobs : Nat → job_t) (idv : Int) : List Nat → List Nat × List Nat
  | [] => ([], [])
  | b :: rest =>
    if (jobs b).id = idv then
      match rest with
      | [] => ([], [b])
      | c :: rest2 =>
        let r := finishRemoveAux jobs idv rest2
        (c :: r.1, b :: r.2)
    else
      let r := finishRemoveAux jobs idv rest
      (b :: r.1, r.2)

/-- The assign-first-waiting scan shared by `scheduler_job_finished`
(libscheduler.c lines 411-425) and `scheduler_quantum_expired` (lines
457-469): the first queue element with `core_number == -1` is started on
`core_id` (setting `start_time` only if still unset) and its id returned;
`-1` when no job is waiting. -/
def assignFirstWaiting (s : SchedState) (core_id : Nat) (time : Int) : SchedState × Int :=
  match s.queue.find? (fun a => (s.jobs a).core_number == -1) with
  | none => (s, -1)
  | some a =>
    let j := s.jobs a
    let s2 := setJob s a
      { j with core_number := (core_id : Int)
               start_time := if j.start_time = -1 then time else j.start_time
               last_updated_time := time }
    ({ s2 with core_arr := s2.core_arr.set core_id (some a) }, j.id)

/-- `scheduler_job_finished` (libscheduler.c lines 392-428), embedded under
the documented payload contract of the store removal.  The queue and core
slot effects coincide with the C exactly: the removal loop unlinks the right
cells and the assignment scan reads payloads through `priqueue_at`.  Only
the id-match path diverges from the shipped code: there the C reads the
statistics from, and frees, the NODE pointer returned by
`priqueue_remove_at` (libscheduler.c lines 398-407) instead of the stored
job, so the C statistics fold reads node memory; this embedding folds the
job record the loop is written to free. -/
def scheduler_job_finished (s : SchedState) (core_id : Nat) (job_number time : Int) :
    SchedState × Int :=
  let s0 : SchedState := { s with core_arr := s.core_arr.set core_id none }
  let r := finishRemoveAux s0.jobs job_number s0.queue
  let s1 := r.2.foldl (fun st b => foldStats st (s0.jobs b) time) { s0 with queue := r.1 }
  assignFirstWaiting s1 core_id time

/-- The search-and-unlink loop of `scheduler_quantum_expired` (libscheduler.c
lines 447-455): walk the queue, unlink the first address whose job id equals
`idv`, and return it (the loop breaks after the first match). -/
def removeFirstById (jobs : Nat → job_t) (idv : Int) : List Nat → List Nat × Option Nat
  | [] => ([], none)
  | b :: rest =>
    if (jobs b).id = idv then (rest, some b)
    else
      let r := removeFirstById jobs idv rest
      (b :: r.1, r.2)

/-- `scheduler_quantum_expired` (libscheduler.c lines 444-472), embedded
under the documented payload contract of the store removal: unlink the job
whose id matches the job on `core_id`, clear its `core_number` and the
slot, re-offer it, then assign the first waiting job to `core_id`.  This is
the step the loop is written to perform; the SHIPPED `priqueue_remove_at`
returns the NODE pointer instead of the job, so the real lines 449-452
write `-1` past the node allocation (leaving the job record untouched) and
re-offer the node pointer — that divergent behaviour is modelled faithfully
by `quantumRequeuePtr`. -/
def scheduler_quantum_expired (s : SchedState) (core_id : Nat) (time : Int) :
    SchedState × Int :=
  let target := (getSlot s core_id).getD 0
  let r := removeFirstById s.jobs (s.jobs target).id s.queue
  let s1 :=
    match r.2 with
    | none => s
    | some a =>
      let sa := setJob { s with queue := r.1 } a { s.jobs a with core_number := -1 }
      let sb : SchedState := { sa with core_arr := sa.core_arr.set core_id none }
      { sb with queue := (offerAux (comparerOf sb.scheme) sb.jobs a sb.queue).1 }
  assignFirstWaiting s1 core_id time

/-- `scheduler_average_waiting_time` (libscheduler.c lines 483-485). -/
def scheduler_average_waiting_time (s : SchedState) : ℚ :=
  if s.total_finished_jobs = 0 then 0
  else s.total_waiting_time / (s.total_finished_jobs : ℚ)

/-- `scheduler_average_turnaround_time` (libscheduler.c lines 496-498). -/
def scheduler_average_turnaround_time (s : SchedState) : ℚ :=
  if s.total_finished_jobs = 0 then 0
  else s.total_turnaround_time / (s.total_finished_jobs : ℚ)

/-- `scheduler_average_response_time` (libscheduler.c lines 509-511). -/
def scheduler_average_response_time (s : SchedState) : ℚ :=
  if s.total_finished_jobs = 0 then 0
  else s.total_response_time / (s.total_finished_jobs : ℚ)

/-! ## Basic lemmas about the store operations -/

/-- `scanInsert` lands the new element immediately before the first element
for which the scan predicate fails, and reports the landing index. -/
lemma scanInsert_eq {α : Type} (p : α → Bool) (x : α) (l : List α) :
    scanInsert p x l =
      (l.takeWhile p ++ x :: l.dropWhile p, (l.takeWhile p).length) := by
  induction l with
  | nil => rfl
  | cons a rest ih =>
    by_cases h : p a
    · simp [scanInsert, h, List.takeWhile_cons, List.dropWhile_cons, ih]
    · simp [scanInsert, h, List.takeWhile_cons, List.dropWhile_cons]

/-- The list produced by `scanInsert` splits the old list around the new
element. -/
lemma scanInsert_split {α : Type} (p : α → Bool) (x : α) (l : List α) :
    ∃ l1 l2, l = l1 ++ l2 ∧ (scanInsert p x l).1 = l1 ++ x :: l2 := by
  refine ⟨l.takeWhile p, l.dropWhile p, (List.takeWhile_append_dropWhile p l).symm, ?_⟩
  rw [scanInsert_eq]

/-- When the scan predicate holds everywhere, `scanInsert` appends at the
back. -/
lemma scanInsert_all_true {α : Type} (p : α → Bool) (x : α) (l : List α)
    (h : ∀ a ∈ l, p a) :
    (scanInsert p x l).1 = l ++ [x] := by
  rw [scanInsert_eq]
  simp [List.takeWhile_eq_self_iff.2 h, List.dropWhile_eq_nil_iff.2 h]

/-! ## Claims C2, C3, C4: the Ordered Job Store -/

/-- Claim C2.  The code run at the failing input: on the one-element queue
holding payload `42`, `priqueue_remove_at 0` does unlink the element, but the
value it returns is the list NODE `node_t.mk 42` (the C function returns
`temp`, libpriqueue.c line 269), not the stored payload `42` that
`priqueue_at` returns and that the repository's own test
(`queuetest.c` Test 11, `priqueue_remove_at(&q, 0) == &values[0]`) expects;
the out-of-range call returns empty and leaves the store unchanged. -/
theorem C2_code_eval :
    priqueue_remove_at [node_t.mk (42 : Int)] 0 = ([], some (node_t.mk 42)) ∧
    priqueue_at [node_t.mk (42 : Int)] 0 = some 42 ∧
    priqueue_remove_at [node_t.mk (42 : Int)] 1 = ([node_t.mk 42], none) := by
  refine ⟨rfl, rfl, rfl⟩

/-- Claim C3.  The code run at the failing inputs: with the constant `-1`
comparer (the `fcfs`/`rr` comparer shape), the element identical to the
argument is NOT removed (`comparer` never reports 0), although raw identity
comparison would remove it; with a comparer that reports everything equal,
BOTH elements are removed although only the first is identical to the
argument.  `priqueue_remove` compares with `comparer(temp->data, ptr) == 0`
(libpriqueue.c line 196), not with `temp->data == ptr` as its own doc
comment (lines 172-180) demands. -/
theorem C3_code_eval :
    priqueue_remove (fun _ _ => (-1 : Int)) [node_t.mk (7 : Int)] 7 =
      ([node_t.mk 7], 0) ∧
    priqueue_remove (fun _ _ => (0 : Int)) [node_t.mk (7 : Int), node_t.mk 9] 7 =
      ([], 2) := by
  refine ⟨rfl, rfl⟩

/-- Claim C4, counterexample: with a comparator that reports every pair
equal, offering `6` to the queue `[5]` lands the new element at index 0,
BEFORE the existing comparator-equal element — not after it (index 1) as the
claim's stability clause requires. -/
theorem C4_counterexample :
    priqueue_offer (fun _ _ => (0 : Int)) [node_t.mk (5 : Int)] 6 =
      ([node_t.mk 6, node_t.mk 5], 0) := rfl

/-- Claim C4 (amended): `priqueue_offer` places the new element immediately
before the first existing element that the comparator ranks as not-less
(scanning while `comparer(current, new) < 0`), hence BEFORE every existing
comparator-equal element, and returns the zero-based position at which it
landed. -/
theorem C4_offer_spec {α : Type} (cmp : α → α → Int) (q : List (node_t α)) (ptr : α) :
    priqueue_offer cmp q ptr =
      (q.takeWhile (fun n => cmp n.data ptr < 0) ++
         node_t.mk ptr :: q.dropWhile (fun n => cmp n.data ptr < 0),
       (q.takeWhile (fun n => cmp n.data ptr < 0)).length) ∧
    ∀ n ∈ q, cmp n.data ptr = 0 →
      n ∈ q.dropWhile (fun n => cmp n.data ptr < 0) := by
  constructor
  · exact scanInsert_eq _ _ q
  · intro n hn h0
    have hsplit := List.takeWhile_append_dropWhile
      (p := fun n => decide (cmp n.data ptr < 0)) (l := q)
    rw [← hsplit] at hn
    rcases List.mem_append.1 hn with htake | hdrop
    · have := List.mem_takeWhile_imp htake
      simp only [decide_eq_true_eq] at this
      omega
    · exact hdrop

/-- Witness for C4_offer_spec at a concrete comparator and queue. -/
theorem C4_offer_spec_witness :
    priqueue_offer (fun a b => a - b) [node_t.mk (1 : Int), node_t.mk 3] 2 =
      ([node_t.mk 1, node_t.mk 2, node_t.mk 3], 1) := by
  have h := (C4_offer_spec (fun a b => a - b) [node_t.mk (1 : Int), node_t.mk 3] 2).1
  simpa using h

/-! ## Claim C9: the statistics reporters -/

/-- Claim C9: `scheduler_average_waiting_time`,
`scheduler_average_turnaround_time` and `scheduler_average_response_time`
return 0 when `total_finished_jobs` is zero, and otherwise the corresponding
running sum divided by the count of finished jobs. -/
theorem C9_average_functions (s : SchedState) :
    (s.total_finished_jobs = 0 →
      scheduler_average_waiting_time s = 0 ∧
      scheduler_average_turnaround_time s = 0 ∧
      scheduler_average_response_time s = 0) ∧
    (s.total_finished_jobs ≠ 0 →
      scheduler_average_waiting_time s =
        s.total_waiting_time / (s.total_finished_jobs : ℚ) ∧
      scheduler_average_turnaround_time s =
        s.total_turnaround_time / (s.total_finished_jobs : ℚ) ∧
      scheduler_average_response_time s =
        s.total_response_time / (s.total_finished_jobs : ℚ)) := by
  constructor <;> intro h <;>
    simp [scheduler_average_waiting_time, scheduler_average_turnaround_time,
      scheduler_average_response_time, h]

/-- A state with two finished jobs and three units of accumulated waiting
time, used to witness C9_average_functions. -/
def statsDemoState : SchedState :=
  { scheduler_start_up 1 scheme_t.FCFS with
      total_waiting_time := 3, total_finished_jobs := 2 }

/-- Witness for C9_average_functions at a concrete state. -/
theorem C9_average_functions_witness :
    statsDemoState.total_finished_jobs ≠ 0 ∧
    scheduler_average_waiting_time statsDemoState = 3 / 2 := by
  refine ⟨by decide, ?_⟩
  have h := (C9_average_functions statsDemoState).2 (by decide)
  rw [h.1]
  norm_num [statsDemoState, scheduler_start_up]

/-! ## Claim C1: the PPRI preemption victim scan -/

/-- The scheduler state reached under PPRI on 2 cores after
`new_job(0, 0, 10, 5)` (running on core 0 since time 0) and
`new_job(1, 3, 10, 5)` (running on core 1 since time 3): two running jobs
with equal priority 5 and distinct start times. -/
def ppriDemo : SchedState :=
  (scheduler_new_job
    (scheduler_new_job (scheduler_start_up 2 scheme_t.PPRI) 0 0 10 5).1
    1 3 10 5).1

/-- Claim C1.  The code run at the failing input: on `ppriDemo` a job of
priority 3 arrives at time 4 (insertion rank 0 < 2 cores, all cores busy).
Both running jobs carry the maximal priority value 5; an ascending scan that
moves the victim only on a strictly greater priority would evict core 0, but
the code's equal-priority/later-start_time branch (libscheduler.c line 345)
moves the victim to core 1: the call returns core 1, core 1's job (address 1)
is evicted, and core 0 still holds its job. -/
theorem C1_code_eval :
    (scheduler_new_job ppriDemo 2 4 10 3).2 = 1 ∧
    ((scheduler_new_job ppriDemo 2 4 10 3).1.jobs 1).core_number = -1 ∧
    getSlot (scheduler_new_job ppriDemo 2 4 10 3).1 0 = some 0 ∧
    getSlot ppriDemo 0 ≠ none ∧ getSlot ppriDemo 1 ≠ none ∧
    (ppriDemo.jobs 0).priority = 5 ∧ (ppriDemo.jobs 1).priority = 5 := by
  refine ⟨by decide, by decide, by decide, by decide, by decide, by decide, by decide⟩

/-! ## Helper lemmas about the core table and state plumbing -/

lemma getD_set_self (l : List (Option Nat)) {i : Nat} (h : i < l.length)
    (x : Option Nat) : (l.set i x).getD i none = x := by
  simp [List.getD_eq_getElem?_getD, List.getElem?_set_self, h]

lemma getD_set_ne (l : List (Option Nat)) {i j : Nat} (h : i ≠ j)
    (x : Option Nat) : (l.set i x).getD j none = l.getD j none := by
  simp [List.getD_eq_getElem?_getD, List.getElem?_set_ne h]

lemma getD_replicate_none (n i : Nat) :
    (List.replicate n (none : Option Nat)).getD i none = none := by
  simp [List.getD_eq_getElem?_getD, List.getElem?_replicate]
  split <;> rfl

/-- `firstEmptyAux` reports no slot exactly when every slot is busy. -/
lemma firstEmptyAux_eq_none_iff :
    ∀ (l : List (Option Nat)) (k : Nat),
      firstEmptyAux l k = none ↔ ∀ i < l.length, l.getD i none ≠ none := by
  intro l
  induction l with
  | nil => intro k; simp [firstEmptyAux]
  | cons o rest ih =>
    intro k
    match o with
    | none =>
      simp only [firstEmptyAux]
      constructor
      · intro h; cases h
      · intro h
        exact absurd rfl (h 0 (by simp) )
    | some b =>
      simp only [firstEmptyAux]
      rw [ih (k + 1)]
      constructor
      · intro h i hi
        match i with
        | 0 => simp [List.getD_cons_zero]
        | i + 1 =>
          simpa [List.getD_cons_succ] using h i (by simpa using hi)
      · intro h i hi
        simpa [List.getD_cons_succ] using h (i + 1) (by simpa using hi)

/-- When `firstEmptyAux` finds a slot, that slot is in range and empty. -/
lemma firstEmptyAux_eq_some :
    ∀ (l : List (Option Nat)) (k i : Nat), firstEmptyAux l k = some i →
      k ≤ i ∧ i - k < l.length ∧ l.getD (i - k) none = none := by
  intro l
  induction l with
  | nil => intro k i h; cases h
  | cons o rest ih =>
    intro k i h
    match o with
    | none =>
      simp only [firstEmptyAux, Option.some.injEq] at h
      subst h
      simp [List.getD_cons_zero]
    | some b =>
      simp only [firstEmptyAux] at h
      obtain ⟨h1, h2, h3⟩ := ih (k + 1) i h
      refine ⟨by omega, by simp; omega, ?_⟩
      have : i - k = (i - (k + 1)) + 1 := by omega
      rw [this, List.getD_cons_succ]
      exact h3

/-- The job fields that the PSJF re-synchronisation loop leaves untouched. -/
def jobSkel (j : job_t) : Int × Int × Int × Int × Int × Int :=
  (j.id, j.arrival_time, j.running_time, j.priority, j.core_number, j.start_time)

lemma jobSkel_psjfUpdateJob (t : Int) (j : job_t) :
    jobSkel (psjfUpdateJob t j) = jobSkel j := rfl

/-- Each step of the PSJF loop only rewrites the job arena. -/
lemma psjfBody_jobsOnly (t : Int) (st : SchedState) (i : Nat) :
    ∃ J, psjfBody t st i = { st with jobs := J } := by
  unfold psjfBody
  cases getSlot st i with
  | none => exact ⟨st.jobs, rfl⟩
  | some a => exact ⟨_, rfl⟩

/-- Folding a jobs-only step over any list only rewrites the job arena. -/
lemma foldl_jobsOnly (f : SchedState → Nat → SchedState)
    (hf : ∀ st i, ∃ J, f st i = { st with jobs := J }) :
    ∀ (l : List Nat) (s : SchedState), ∃ J, l.foldl f s = { s with jobs := J } := by
  intro l
  induction l with
  | nil => intro s; exact ⟨s.jobs, rfl⟩
  | cons i rest ih =>
    intro s
    obtain ⟨J0, h0⟩ := hf s i
    obtain ⟨J, hJ⟩ := ih (f s i)
    refine ⟨J, ?_⟩
    rw [List.foldl_cons, hJ, h0]

lemma psjfUpdate_jobsOnly (s : SchedState) (t : Int) :
    ∃ J, psjfUpdate s t = { s with jobs := J } :=
  foldl_jobsOnly (psjfBody t) (psjfBody_jobsOnly t) _ s

lemma psjfUpdate_queue (s : SchedState) (t : Int) :
    (psjfUpdate s t).queue = s.queue := by
  obtain ⟨J, h⟩ := psjfUpdate_jobsOnly s t
  rw [h]

lemma psjfUpdate_core_arr (s : SchedState) (t : Int) :
    (psjfUpdate s t).core_arr = s.core_arr := by
  obtain ⟨J, h⟩ := psjfUpdate_jobsOnly s t
  rw [h]

lemma psjfUpdate_nextAddr (s : SchedState) (t : Int) :
    (psjfUpdate s t).nextAddr = s.nextAddr := by
  obtain ⟨J, h⟩ := psjfUpdate_jobsOnly s t
  rw [h]

lemma psjfUpdate_scheme (s : SchedState) (t : Int) :
    (psjfUpdate s t).scheme = s.scheme := by
  obtain ⟨J, h⟩ := psjfUpdate_jobsOnly s t
  rw [h]

/-- The PSJF loop preserves every job field except `remaining_time` and
`last_updated_time`. -/
lemma psjfUpdate_jobSkel (s : SchedState) (t : Int) (b : Nat) :
    jobSkel ((psjfUpdate s t).jobs b) = jobSkel (s.jobs b) := by
  unfold psjfUpdate
  generalize List.range s.core_arr.length = l
  induction l generalizing s with
  | nil => rfl
  | cons i rest ih =>
    rw [List.foldl_cons]
    rw [ih (psjfBody t s i)]
    unfold psjfBody
    cases hsl : getSlot s i with
    | none => rfl
    | some a =>
      by_cases hb : b = a
      · subst hb
        simp [setJob, Function.update_same, jobSkel_psjfUpdateJob]
      · simp [setJob, Function.update_noteq hb]

/-- Addresses held by no core slot are untouched by the PSJF loop. -/
lemma psjfUpdate_jobs_untouched (s : SchedState) (t : Int) (b : Nat)
    (h : ∀ i, getSlot s i ≠ some b) :
    (psjfUpdate s t).jobs b = s.jobs b := by
  unfold psjfUpdate
  generalize List.range s.core_arr.length = l
  induction l generalizing s with
  | nil => rfl
  | cons i rest ih =>
    rw [List.foldl_cons]
    have hslots : ∀ j, getSlot (psjfBody t s i) j ≠ some b := by
      intro j
      obtain ⟨J, hJ⟩ := psjfBody_jobsOnly t s i
      rw [hJ]
      exact h j
    rw [ih (psjfBody t s i) hslots]
    unfold psjfBody
    cases hsl : getSlot s i with
    | none => rfl
    | some a =>
      have hb : b ≠ a := by
        intro hba
        exact h i (hba ▸ hsl)
      simp [setJob, Function.update_noteq hb]

lemma getSlot_oob (s : SchedState) (i : Nat) (h : s.core_arr.length ≤ i) :
    getSlot s i = none := by
  rw [getSlot, List.getD_eq_getElem?_getD, List.getElem?_eq_none h]
  rfl

/-- Executable form of "every occupied slot holds an address below `n`". -/
def slotsBelow (s : SchedState) (n : Nat) : Bool :=
  s.core_arr.all (fun o => match o with | none => true | some b => decide (b < n))

lemma slotsBelow_spec {s : SchedState} {n : Nat} (h : slotsBelow s n = true) :
    ∀ i b, getSlot s i = some b → b < n := by
  intro i b hsl
  by_cases hi : i < s.core_arr.length
  · have h1 : s.core_arr[i]? = some (some b) := by
      rw [getSlot, List.getD_eq_getElem?_getD] at hsl
      cases h2 : s.core_arr[i]? with
      | none => rw [h2] at hsl; cases hsl
      | some o =>
        rw [h2] at hsl
        simp only [Option.getD_some] at hsl
        rw [hsl]
    have hmem : (some b) ∈ s.core_arr := List.getElem?_mem h1
    have hb := (List.all_eq_true.1 h) _ hmem
    simpa using hb
  · rw [getSlot_oob s i (by omega)] at hsl
    cases hsl

/-- Decomposition of the first phase of `scheduler_new_job`: the new job's
record sits at the old `nextAddr`, the queue is the old queue with the new
address spliced in at the offer position, the core table is untouched, and
every other record keeps its identity, core and start fields (everything
when the scheme is not PSJF). -/
lemma phase1_spec (s : SchedState) (jn t rt pr : Int)
    (hsl : ∀ i b, getSlot s i = some b → b < s.nextAddr) :
    ∃ l1 l2, s.queue = l1 ++ l2 ∧
      (scheduler_new_job_phase1 s jn t rt pr).1.queue = l1 ++ s.nextAddr :: l2 ∧
      (scheduler_new_job_phase1 s jn t rt pr).1.core_arr = s.core_arr ∧
      (scheduler_new_job_phase1 s jn t rt pr).1.nextAddr = s.nextAddr + 1 ∧
      (scheduler_new_job_phase1 s jn t rt pr).1.scheme = s.scheme ∧
      (scheduler_new_job_phase1 s jn t rt pr).1.jobs s.nextAddr = mkJob jn t rt pr ∧
      (∀ b, b ≠ s.nextAddr →
        jobSkel ((scheduler_new_job_phase1 s jn t rt pr).1.jobs b) = jobSkel (s.jobs b)) ∧
      (s.scheme ≠ scheme_t.PSJF →
        ∀ b, b ≠ s.nextAddr →
          (scheduler_new_job_phase1 s jn t rt pr).1.jobs b = s.jobs b) := by
  classical
  set a := s.nextAddr with ha
  set sA : SchedState :=
    { s with jobs := Function.update s.jobs a (mkJob jn t rt pr), nextAddr := a + 1 }
    with hsA
  set sB := if sA.scheme = scheme_t.PSJF then psjfUpdate sA t else sA with hsB
  have hph : scheduler_new_job_phase1 s jn t rt pr =
      ({ sB with queue := (offerAux (comparerOf sB.scheme) sB.jobs a sB.queue).1 },
       (offerAux (comparerOf sB.scheme) sB.jobs a sB.queue).2) := rfl
  have hBca : sB.core_arr = s.core_arr := by
    rw [hsB]; split
    · rw [psjfUpdate_core_arr]
    · rfl
  have hBna : sB.nextAddr = a + 1 := by
    rw [hsB]; split
    · rw [psjfUpdate_nextAddr]
    · rfl
  have hBsch : sB.scheme = s.scheme := by
    rw [hsB]; split
    · rw [psjfUpdate_scheme]
    · rfl
  have hBq : sB.queue = s.queue := by
    rw [hsB]; split
    · rw [psjfUpdate_queue]
    · rfl
  have hAslots : ∀ i, getSlot sA i ≠ some a := by
    intro i heq
    have hgs : getSlot s i = some a := by
      simpa [getSlot, hsA] using heq
    have := hsl i a hgs
    omega
  have hBja : sB.jobs a = mkJob jn t rt pr := by
    rw [hsB]; split
    · rw [psjfUpdate_jobs_untouched sA t a hAslots]
      simp [hsA, Function.update_same]
    · simp [hsA, Function.update_same]
  have hBskel : ∀ b, b ≠ a → jobSkel (sB.jobs b) = jobSkel (s.jobs b) := by
    intro b hb
    have hA : sA.jobs b = s.jobs b := by
      simp [hsA, Function.update_noteq hb]
    rw [hsB]; split
    · rw [psjfUpdate_jobSkel, hA]
    · rw [hA]
  have hBpure : s.scheme ≠ scheme_t.PSJF → ∀ b, b ≠ a → sB.jobs b = s.jobs b := by
    intro hns b hb
    rw [hsB, if_neg (by simpa [hsA] using hns)]
    simp [hsA, Function.update_noteq hb]
  obtain ⟨l1, l2, hsplit, hres⟩ := scanInsert_split
    (fun b => comparerOf sB.scheme (sB.jobs b) (sB.jobs a) < 0) a sB.queue
  refine ⟨l1, l2, ?_, ?_, ?_, ?_, ?_, ?_, ?_, ?_⟩
  · rw [← hBq]; exact hsplit
  · rw [hph]; exact hres
  · rw [hph]; exact hBca
  · rw [hph]; exact hBna
  · rw [hph]; exact hBsch
  · rw [hph]; exact hBja
  · intro b hb; rw [hph]; exact hBskel b hb
  · intro hns b hb; rw [hph]; exact hBpure hns b hb

/-! ## Claim C7: non-preemptive schemes never displace a running job -/

/-- Claim C7: under FCFS, SJF, PRI and RR, when every core is occupied,
`scheduler_new_job` returns -1 and every core slot still holds the same job
record it held before the call. -/
theorem C7_nonpreemptive_no_displacement (s : SchedState)
    (job_number time running_time priority : Int)
    (hscheme : s.scheme = scheme_t.FCFS ∨ s.scheme = scheme_t.SJF ∨
      s.scheme = scheme_t.PRI ∨ s.scheme = scheme_t.RR)
    (hbusy : ∀ i < s.core_arr.length, getSlot s i ≠ none)
    (hlive : ∀ i b, getSlot s i = some b → b < s.nextAddr) :
    (scheduler_new_job s job_number time running_time priority).2 = -1 ∧
    (scheduler_new_job s job_number time running_time priority).1.core_arr = s.core_arr ∧
    ∀ i b, getSlot s i = some b →
      (scheduler_new_job s job_number time running_time priority).1.jobs b = s.jobs b := by
  obtain ⟨l1, l2, hq, hq1, hca, hna, hsch, hja, hskel, hpure⟩ :=
    phase1_spec s job_number time running_time priority hlive
  have hnPSJF : s.scheme ≠ scheme_t.PSJF := by
    rcases hscheme with h | h | h | h <;> simp [h]
  have hjobs : ∀ i b, getSlot s i = some b →
      (scheduler_new_job_phase1 s job_number time running_time priority).1.jobs b =
        s.jobs b := by
    intro i b hslv
    exact hpure hnPSJF b (by have := hlive i b hslv; omega)
  have hkey : scheduler_new_job s job_number time running_time priority =
      ((scheduler_new_job_phase1 s job_number time running_time priority).1, -1) := by
    show scheduler_new_job_phase2 _ _ _ _ = _
    unfold scheduler_new_job_phase2
    rw [hca]
    by_cases hr : (scheduler_new_job_phase1 s job_number time running_time priority).2 <
        s.core_arr.length
    · rw [if_pos hr]
      have hfe : firstEmptyAux s.core_arr 0 = none := by
        rw [firstEmptyAux_eq_none_iff]
        intro i hi
        exact hbusy i hi
      rw [hfe, hsch]
      rcases hscheme with h | h | h | h <;> rw [h]
    · rw [if_neg hr]
  rw [hkey]
  exact ⟨rfl, hca, hjobs⟩

/-- A one-core FCFS state with the core busy (job 0 running since time 0),
used to witness C7. -/
def fcfsDemo : SchedState :=
  (scheduler_new_job (scheduler_start_up 1 scheme_t.FCFS) 0 0 5 0).1

/-- Witness for C7_nonpreemptive_no_displacement at a concrete state. -/
theorem C7_witness :
    (scheduler_new_job fcfsDemo 1 1 3 0).2 = -1 ∧
    (scheduler_new_job fcfsDemo 1 1 3 0).1.core_arr = fcfsDemo.core_arr ∧
    (scheduler_new_job fcfsDemo 1 1 3 0).1.jobs 0 = fcfsDemo.jobs 0 := by
  obtain ⟨h1, h2, h3⟩ := C7_nonpreemptive_no_displacement fcfsDemo 1 1 3 0
    (Or.inl (by decide)) (by decide) (slotsBelow_spec (by decide))
  exact ⟨h1, h2, h3 0 0 (by decide)⟩

/-! ## Lemmas about the completion and assignment loops -/

/-- When no queue entry's id matches, the removal loop of
`scheduler_job_finished` removes nothing. -/
lemma finishRemoveAux_no_match (jobs : Nat → job_t) (idv : Int) :
    ∀ l : List Nat, (∀ a ∈ l, (jobs a).id ≠ idv) →
      finishRemoveAux jobs idv l = (l, []) := by
  intro l
  induction l with
  | nil => intro _; rfl
  | cons b rest ih =>
    intro h
    have hb : (jobs b).id ≠ idv := h b (List.mem_cons_self b rest)
    rw [finishRemoveAux.eq_def]
    simp only [if_neg hb]
    rw [ih (fun a ha => h a (List.mem_cons_of_mem _ ha))]

/-- `find?` returns the head of the suffix when everything before fails the
predicate and the head satisfies it. -/
lemma find?_first {α : Type} {p : α → Bool} :
    ∀ (l1 : List α) (a : α) (l2 : List α), (∀ b ∈ l1, p b = false) → p a = true →
      (l1 ++ a :: l2).find? p = some a := by
  intro l1
  induction l1 with
  | nil =>
    intro a l2 _ hpa
    rw [List.nil_append]
    exact List.find?_cons_of_pos l2 hpa
  | cons c rest ih =>
    intro a l2 h hpa
    have hc : ¬ (p c = true) := by simp [h c (List.mem_cons_self c rest)]
    rw [List.cons_append, List.find?_cons_of_neg _ hc]
    exact ih a l2 (fun b hb => h b (List.mem_cons_of_mem _ hb)) hpa

/-- The assignment scan does not touch the queue, the arena allocator, the
scheme or the statistics. -/
lemma assignFirstWaiting_frame (s : SchedState) (core_id : Nat) (time : Int) :
    (assignFirstWaiting s core_id time).1.queue = s.queue ∧
    (assignFirstWaiting s core_id time).1.nextAddr = s.nextAddr ∧
    (assignFirstWaiting s core_id time).1.scheme = s.scheme ∧
    (assignFirstWaiting s core_id time).1.total_waiting_time = s.total_waiting_time ∧
    (assignFirstWaiting s core_id time).1.total_response_time = s.total_response_time ∧
    (assignFirstWaiting s core_id time).1.total_turnaround_time = s.total_turnaround_time ∧
    (assignFirstWaiting s core_id time).1.total_finished_jobs = s.total_finished_jobs := by
  unfold assignFirstWaiting
  rcases hf : s.queue.find? (fun a => (s.jobs a).core_number == -1) with _ | a <;>
    simp [hf, setJob]

/-- When no queue entry is waiting, the assignment scan reports -1 and
changes nothing. -/
lemma assignFirstWaiting_none (s : SchedState) (core_id : Nat) (time : Int)
    (h : ∀ a ∈ s.queue, (s.jobs a).core_number ≠ -1) :
    assignFirstWaiting s core_id time = (s, -1) := by
  unfold assignFirstWaiting
  have hf : s.queue.find? (fun a => (s.jobs a).core_number == -1) = none := by
    rw [List.find?_eq_none]
    intro a ha
    simpa using h a ha
  rw [hf]

/-- When the first waiting queue entry is `a`, the assignment scan starts it
on `core_id` and returns its id. -/
lemma assignFirstWaiting_some (s : SchedState) (core_id : Nat) (time : Int)
    (l1 : List Nat) (a : Nat) (l2 : List Nat)
    (hq : s.queue = l1 ++ a :: l2)
    (h1 : ∀ b ∈ l1, (s.jobs b).core_number ≠ -1)
    (ha : (s.jobs a).core_number = -1) :
    assignFirstWaiting s core_id time =
      ({ setJob s a
          { s.jobs a with
              core_number := (core_id : Int)
              start_time := if (s.jobs a).start_time = -1 then time
                            else (s.jobs a).start_time
              last_updated_time := time }
          with core_arr := s.core_arr.set core_id (some a) },
       (s.jobs a).id) := by
  unfold assignFirstWaiting
  have hf : s.queue.find? (fun b => (s.jobs b).core_number == -1) = some a := by
    rw [hq]
    exact find?_first l1 a l2 (fun b hb => by simpa using h1 b hb) (by simpa using ha)
  rw [hf]
  rfl

/-! ## Claim C10: completion events carrying an unknown job id -/

/-- Claim C10: a `scheduler_job_finished` call whose `job_number` matches no
queue entry leaves all four aggregate statistics and the queue unchanged,
still clears core slot `core_id`, and still assigns the first waiting job in
rank order (if any) to `core_id` returning its id; with no waiting job it
returns -1 and the slot stays empty. -/
theorem C10_job_finished_unknown_id (s : SchedState) (core_id : Nat)
    (job_number time : Int)
    (hcid : core_id < s.core_arr.length)
    (hno : ∀ a ∈ s.queue, (s.jobs a).id ≠ job_number) :
    (scheduler_job_finished s core_id job_number time).1.total_waiting_time =
      s.total_waiting_time ∧
    (scheduler_job_finished s core_id job_number time).1.total_response_time =
      s.total_response_time ∧
    (scheduler_job_finished s core_id job_number time).1.total_turnaround_time =
      s.total_turnaround_time ∧
    (scheduler_job_finished s core_id job_number time).1.total_finished_jobs =
      s.total_finished_jobs ∧
    (scheduler_job_finished s core_id job_number time).1.queue = s.queue ∧
    ((∀ a ∈ s.queue, (s.jobs a).core_number ≠ -1) →
      (scheduler_job_finished s core_id job_number time).2 = -1 ∧
      getSlot (scheduler_job_finished s core_id job_number time).1 core_id = none) ∧
    (∀ l1 a l2, s.queue = l1 ++ a :: l2 →
      (∀ b ∈ l1, (s.jobs b).core_number ≠ -1) →
      (s.jobs a).core_number = -1 →
      (scheduler_job_finished s core_id job_number time).2 = (s.jobs a).id ∧
      getSlot (scheduler_job_finished s core_id job_number time).1 core_id = some a ∧
      ((scheduler_job_finished s core_id job_number time).1.jobs a).core_number =
        (core_id : Int)) := by
  have hrm : finishRemoveAux s.jobs job_number s.queue = (s.queue, []) :=
    finishRemoveAux_no_match s.jobs job_number s.queue hno
  have hkey : scheduler_job_finished s core_id job_number time =
      assignFirstWaiting { s with core_arr := s.core_arr.set core_id none } core_id time := by
    simp only [scheduler_job_finished]
    rw [hrm]
    rfl
  set s0 : SchedState := { s with core_arr := s.core_arr.set core_id none } with hs0
  obtain ⟨hfq, hfn, hfs, hf1, hf2, hf3, hf4⟩ := assignFirstWaiting_frame s0 core_id time
  rw [hkey]
  refine ⟨hf1, hf2, hf3, hf4, hfq, ?_, ?_⟩
  · intro hw
    rw [assignFirstWaiting_none s0 core_id time (fun a ha => hw a ha)]
    refine ⟨rfl, ?_⟩
    show (s.core_arr.set core_id none).getD core_id none = none
    exact getD_set_self s.core_arr hcid none
  · intro l1 a l2 hq h1 hA
    rw [assignFirstWaiting_some s0 core_id time l1 a l2 hq h1 hA]
    refine ⟨rfl, ?_, ?_⟩
    · show ((s.core_arr.set core_id none).set core_id (some a)).getD core_id none = some a
      exact getD_set_self _ (by simpa using hcid) _
    · simp only [setJob]
      rw [Function.update_same]

/-- The one-core FCFS state after a second arrival: job 0 runs on core 0 and
job 1 waits; no live job has id 99. -/
def fcfsDemo2 : SchedState := (scheduler_new_job fcfsDemo 1 1 3 0).1

/-- Witness for C10_job_finished_unknown_id at a concrete state. -/
theorem C10_job_finished_unknown_id_witness :
    (scheduler_job_finished fcfsDemo2 0 99 7).1.total_finished_jobs =
      fcfsDemo2.total_finished_jobs ∧
    (scheduler_job_finished fcfsDemo2 0 99 7).2 = 1 ∧
    getSlot (scheduler_job_finished fcfsDemo2 0 99 7).1 0 = some 1 := by
  obtain ⟨_, _, _, h4, _, _, hsome⟩ :=
    C10_job_finished_unknown_id fcfsDemo2 0 99 7 (by decide) (by decide)
  obtain ⟨hid, hslot, _⟩ := hsome [0] 1 [] (by decide) (by decide) (by decide)
  refine ⟨h4, ?_, hslot⟩
  rw [hid]
  decide

/-! ## The PSJF victim scan -/

/-- The PSJF victim scan returns the remaining time and core index of the
running job with the largest remaining time, choosing the lowest index among
equal maxima (only a strictly greater value moves the victim). -/
lemma psjfScan_spec (s : SchedState) (h : 0 < s.core_arr.length) :
    (psjfScan s).2 < s.core_arr.length ∧
    (psjfScan s).1 = (slotJob s (psjfScan s).2).remaining_time ∧
    (∀ i < s.core_arr.length, (slotJob s i).remaining_time ≤ (psjfScan s).1) ∧
    (∀ i < (psjfScan s).2, (slotJob s i).remaining_time < (psjfScan s).1) := by
  have aux : ∀ n, 1 ≤ n →
      (((List.range n).foldl (psjfScanStep s) ((slotJob s 0).remaining_time, 0)).2 < n ∧
       ((List.range n).foldl (psjfScanStep s) ((slotJob s 0).remaining_time, 0)).1 =
         (slotJob s
           ((List.range n).foldl (psjfScanStep s)
             ((slotJob s 0).remaining_time, 0)).2).remaining_time ∧
       (∀ i < n, (slotJob s i).remaining_time ≤
         ((List.range n).foldl (psjfScanStep s) ((slotJob s 0).remaining_time, 0)).1) ∧
       (∀ i < ((List.range n).foldl (psjfScanStep s) ((slotJob s 0).remaining_time, 0)).2,
         (slotJob s i).remaining_time <
           ((List.range n).foldl (psjfScanStep s) ((slotJob s 0).remaining_time, 0)).1)) := by
    intro n hn
    induction n, hn using Nat.le_induction with
    | base =>
      have h01 : List.range 1 = [0] := rfl
      have hstep : (List.range 1).foldl (psjfScanStep s) ((slotJob s 0).remaining_time, 0) =
          ((slotJob s 0).remaining_time, 0) := by
        rw [h01]
        simp [psjfScanStep]
      rw [hstep]
      refine ⟨by omega, rfl, ?_, by omega⟩
      intro i hi
      have hi0 : i = 0 := by omega
      subst hi0
      exact le_refl _
    | succ n hn ih =>
      obtain ⟨ih1, ih2, ih3, ih4⟩ := ih
      rw [List.range_succ, List.foldl_append, List.foldl_cons, List.foldl_nil]
      set r := (List.range n).foldl (psjfScanStep s) ((slotJob s 0).remaining_time, 0) with hr
      by_cases hgt : (slotJob s n).remaining_time > r.1
      · rw [show psjfScanStep s r n = ((slotJob s n).remaining_time, n) from by
          simp [psjfScanStep, hgt]]
        refine ⟨by omega, rfl, ?_, ?_⟩
        · intro i hi
          rcases Nat.lt_succ_iff_lt_or_eq.1 hi with hlt | heq
          · have := ih3 i hlt; omega
          · subst heq; exact le_refl _
        · intro i hi
          have := ih3 i hi
          omega
      · rw [show psjfScanStep s r n = r from by simp [psjfScanStep, hgt]]
        refine ⟨by omega, ih2, ?_, ih4⟩
        intro i hi
        rcases Nat.lt_succ_iff_lt_or_eq.1 hi with hlt | heq
        · exact ih3 i hlt
        · subst heq; omega
  exact aux s.core_arr.length h

/-- Behaviour of the shared eviction/assignment block. -/
lemma preemptAssign_spec (s1 : SchedState) (a v : Nat) (time : Int)
    (hv : v < s1.core_arr.length) (e : Nat) (he : getSlot s1 v = some e)
    (hea : e ≠ a) :
    (preemptAssign s1 a v time).2 = (v : Int) ∧
    getSlot (preemptAssign s1 a v time).1 v = some a ∧
    ((preemptAssign s1 a v time).1.jobs e).core_number = -1 ∧
    (preemptAssign s1 a v time).1.queue = s1.queue := by
  unfold preemptAssign
  rw [he]
  simp only [Option.getD_some, setJob, getSlot]
  refine ⟨trivial, ?_, ?_, trivial⟩
  · exact getD_set_self _ hv _
  · rw [Function.update_noteq hea, Function.update_same]

/-! ## Claim C5: PSJF preemption rule -/

/-- Claim C5: under PSJF, when all cores are busy and the arriving job's
insertion rank is below the core count, `scheduler_new_job` preempts the
running job with the strictly largest (post-resynchronisation) remaining
time — ties among running jobs broken by the lowest core index — exactly
when that value strictly exceeds the new job's remaining time; otherwise
(equality included) it returns -1 and the core table is unchanged. -/
theorem C5_psjf_preemption (s : SchedState)
    (job_number time running_time priority : Int)
    (hscheme : s.scheme = scheme_t.PSJF)
    (hbusy : ∀ i < s.core_arr.length, getSlot s i ≠ none)
    (hlive : ∀ i b, getSlot s i = some b → b < s.nextAddr)
    (hrank : (scheduler_new_job_phase1 s job_number time running_time priority).2 <
      s.core_arr.length) :
    ∃ v, v < s.core_arr.length ∧
      (∀ i < s.core_arr.length,
        (slotJob (scheduler_new_job_phase1 s job_number time running_time priority).1
            i).remaining_time ≤
          (slotJob (scheduler_new_job_phase1 s job_number time running_time priority).1
            v).remaining_time) ∧
      (∀ i < v,
        (slotJob (scheduler_new_job_phase1 s job_number time running_time priority).1
            i).remaining_time <
          (slotJob (scheduler_new_job_phase1 s job_number time running_time priority).1
            v).remaining_time) ∧
      ((slotJob (scheduler_new_job_phase1 s job_number time running_time priority).1
          v).remaining_time > running_time →
        (scheduler_new_job s job_number time running_time priority).2 = (v : Int) ∧
        getSlot (scheduler_new_job s job_number time running_time priority).1 v =
          some s.nextAddr ∧
        ∀ e, getSlot s v = some e →
          ((scheduler_new_job s job_number time running_time priority).1.jobs
            e).core_number = -1) ∧
      (¬ (slotJob (scheduler_new_job_phase1 s job_number time running_time priority).1
          v).remaining_time > running_time →
        (scheduler_new_job s job_number time running_time priority).2 = -1 ∧
        (scheduler_new_job s job_number time running_time priority).1.core_arr =
          s.core_arr) := by
  obtain ⟨l1, l2, hq, hq1, hca, hna, hsch, hja, hskel, hpure⟩ :=
    phase1_spec s job_number time running_time priority hlive
  set P := (scheduler_new_job_phase1 s job_number time running_time priority).1 with hP
  have h0 : 0 < s.core_arr.length := by omega
  have h0P : 0 < P.core_arr.length := by rw [hca]; exact h0
  obtain ⟨hv, heq, hub, hlb⟩ := psjfScan_spec P h0P
  have hPs : ∀ i, getSlot P i = getSlot s i := by
    intro i
    rw [getSlot, getSlot, hca]
  have hbusyP : ∀ i < P.core_arr.length, getSlot P i ≠ none := by
    intro i hi
    rw [hPs i]
    exact hbusy i (by rw [hca] at hi; exact hi)
  have hfeS : firstEmptyAux s.core_arr 0 = none := by
    rw [firstEmptyAux_eq_none_iff]
    intro i hi
    exact hbusy i hi
  have hrem : (P.jobs s.nextAddr).remaining_time = running_time := by
    rw [hja]
    rfl
  have hkey : scheduler_new_job s job_number time running_time priority =
      (if (psjfScan P).1 > (P.jobs s.nextAddr).remaining_time
       then preemptAssign P s.nextAddr (psjfScan P).2 time
       else (P, -1)) := by
    show scheduler_new_job_phase2 P s.nextAddr
      (scheduler_new_job_phase1 s job_number time running_time priority).2 time = _
    unfold scheduler_new_job_phase2
    rw [hca, if_pos hrank, hfeS, hsch, hscheme]
  rw [heq] at hub hlb
  refine ⟨(psjfScan P).2, by rw [hca] at hv; exact hv, ?_, ?_, ?_, ?_⟩
  · intro i hi
    exact hub i (by rw [hca]; exact hi)
  · exact hlb
  · intro hgt
    have hcond : (psjfScan P).1 > (P.jobs s.nextAddr).remaining_time := by
      rw [heq, hrem]
      exact hgt
    rw [hkey, if_pos hcond]
    cases hslot : getSlot P (psjfScan P).2 with
    | none => exact absurd hslot (hbusyP _ hv)
    | some e =>
      have hne : e ≠ s.nextAddr := by
        have := hlive (psjfScan P).2 e (by rw [← hPs]; exact hslot)
        omega
      obtain ⟨hr1, hr2, hr3, hr4⟩ :=
        preemptAssign_spec P s.nextAddr (psjfScan P).2 time hv e hslot hne
      refine ⟨hr1, hr2, ?_⟩
      intro e0 he0
      have he0P : getSlot P (psjfScan P).2 = some e0 := by rw [hPs]; exact he0
      have : e0 = e := by
        rw [hslot] at he0P
        exact (Option.some.injEq _ _ ▸ he0P).symm
      rw [this]
      exact hr3
  · intro hle
    have hcond : ¬ (psjfScan P).1 > (P.jobs s.nextAddr).remaining_time := by
      rw [heq, hrem]
      exact hle
    rw [hkey, if_neg hcond]
    exact ⟨rfl, hca⟩

/-- A one-core PSJF state with job 0 (10 time units) running since time 0,
used to witness C5. -/
def psjfDemo : SchedState :=
  (scheduler_new_job (scheduler_start_up 1 scheme_t.PSJF) 0 0 10 0).1

/-- Witness for C5_psjf_preemption: at time 2 a 3-unit job arrives; job 0's
remaining time has been resynchronised to 8 > 3, so job 1 preempts core 0
and job 0 is evicted. -/
theorem C5_psjf_preemption_witness :
    (scheduler_new_job psjfDemo 1 2 3 0).2 = 0 ∧
    getSlot (scheduler_new_job psjfDemo 1 2 3 0).1 0 = some 1 ∧
    ((scheduler_new_job psjfDemo 1 2 3 0).1.jobs 0).core_number = -1 := by
  obtain ⟨v, hvlen, _, _, hpre, _⟩ :=
    C5_psjf_preemption psjfDemo 1 2 3 0 (by decide) (by decide)
      (slotsBelow_spec (by decide)) (by decide)
  have hv0 : v = 0 := by
    have : psjfDemo.core_arr.length = 1 := by decide
    omega
  subst hv0
  obtain ⟨h1, h2, h3⟩ := hpre (by decide)
  exact ⟨h1, h2, h3 0 (by decide)⟩

/-! ## Claim C8: round-robin requeue -/

/-- The quantum-expiry search loop unlinks exactly the first id match. -/
lemma removeFirstById_split (jobs : Nat → job_t) (idv : Int) :
    ∀ (l1 : List Nat) (a : Nat) (l2 : List Nat),
      (∀ b ∈ l1, (jobs b).id ≠ idv) → (jobs a).id = idv →
      removeFirstById jobs idv (l1 ++ a :: l2) = (l1 ++ l2, some a) := by
  intro l1
  induction l1 with
  | nil =>
    intro a l2 _ ha
    simp [removeFirstById, ha]
  | cons c rest ih =>
    intro a l2 h ha
    have hc : (jobs c).id ≠ idv := h c (List.mem_cons_self _ _)
    simp only [List.cons_append, removeFirstById, if_neg hc, List.append_eq]
    rw [ih a l2 (fun b hb => h b (List.mem_cons_of_mem _ hb)) ha]

/-- Under the RR comparer (constant -1) an offer always lands at the back. -/
lemma offerAux_rr (jobs : Nat → job_t) (x : Nat) (q : List Nat) :
    offerAux (comparerOf scheme_t.RR) jobs x q = (q ++ [x], q.length) := by
  unfold offerAux
  rw [scanInsert_eq]
  have ht : q.takeWhile (fun b => comparerOf scheme_t.RR (jobs b) (jobs x) < 0) = q :=
    List.takeWhile_eq_self_iff.2 (by intro b _; simp [comparerOf, rr])
  have hd : q.dropWhile (fun b => comparerOf scheme_t.RR (jobs b) (jobs x) < 0) = [] :=
    List.dropWhile_eq_nil_iff.2 (by intro b _; simp [comparerOf, rr])
  rw [ht, hd]

/-- `scheduler_new_job` never reorders the queue after the offer. -/
lemma scheduler_new_job_phase2_queue (s1 : SchedState) (a index : Nat) (time : Int) :
    (scheduler_new_job_phase2 s1 a index time).1.queue = s1.queue := by
  unfold scheduler_new_job_phase2
  split
  · cases hfe : firstEmptyAux s1.core_arr 0 with
    | some i => simp [setJob]
    | none =>
      cases s1.scheme with
      | PSJF =>
        show (if (psjfScan s1).1 > (s1.jobs a).remaining_time
              then preemptAssign s1 a (psjfScan s1).2 time else (s1, -1)).1.queue = s1.queue
        split <;> rfl
      | PPRI =>
        show (if (ppriScan s1).1 > (s1.jobs a).priority
              then preemptAssign s1 a (ppriScan s1).2 time else (s1, -1)).1.queue = s1.queue
        split <;> rfl
      | FCFS => rfl
      | SJF => rfl
      | PRI => rfl
      | RR => rfl
  · rfl

/-- Under RR, an arriving job is appended at the back of the queue. -/
lemma scheduler_new_job_queue_rr (s : SchedState) (jn t rt pr : Int)
    (hs : s.scheme = scheme_t.RR) :
    (scheduler_new_job s jn t rt pr).1.queue = s.queue ++ [s.nextAddr] := by
  have h2 : (scheduler_new_job s jn t rt pr).1.queue =
      (scheduler_new_job_phase1 s jn t rt pr).1.queue :=
    scheduler_new_job_phase2_queue (scheduler_new_job_phase1 s jn t rt pr).1 s.nextAddr
      (scheduler_new_job_phase1 s jn t rt pr).2 t
  rw [h2]
  simp only [scheduler_new_job_phase1]
  rw [hs]
  simp only [reduceCtorEq, if_false]
  rw [offerAux_rr]

/-- Under RR, the requeue step as the quantum-expiry loop is written to
behave — the store removal yielding the stored job, its documented and
tested contract — re-inserts the job removed from the addressed core at the
very back of the queue (strictly after all jobs already waiting), and any
job arriving after the requeue is appended behind it.  The shipped
`priqueue_remove_at` returns the node instead; `quantumRequeuePtr` shows
what then actually reaches the store. -/
theorem rr_requeue_contract (s : SchedState) (core_id : Nat) (time : Int) (a : Nat)
    (l1 l2 : List Nat)
    (hscheme : s.scheme = scheme_t.RR)
    (hslot : getSlot s core_id = some a)
    (hq : s.queue = l1 ++ a :: l2)
    (hids : ∀ b ∈ l1, (s.jobs b).id ≠ (s.jobs a).id) :
    (scheduler_quantum_expired s core_id time).1.queue = (l1 ++ l2) ++ [a] ∧
    (scheduler_quantum_expired s core_id time).1.queue.getLast? = some a ∧
    ∀ jn t2 rt2 pr2,
      (scheduler_new_job (scheduler_quantum_expired s core_id time).1
        jn t2 rt2 pr2).1.queue =
      (scheduler_quantum_expired s core_id time).1.queue ++
        [(scheduler_quantum_expired s core_id time).1.nextAddr] := by
  have htarget : (getSlot s core_id).getD 0 = a := by rw [hslot]; rfl
  have hrm : removeFirstById s.jobs (s.jobs a).id s.queue = (l1 ++ l2, some a) := by
    rw [hq]
    exact removeFirstById_split s.jobs _ l1 a l2 hids rfl
  have hkey : (scheduler_quantum_expired s core_id time).1.queue = (l1 ++ l2) ++ [a] := by
    simp only [scheduler_quantum_expired]
    rw [htarget, hrm]
    rw [(assignFirstWaiting_frame _ core_id time).1]
    show (offerAux (comparerOf s.scheme) _ a ((l1 ++ l2, some a).1)).1 = (l1 ++ l2) ++ [a]
    rw [hscheme, offerAux_rr]
  have hsch2 : (scheduler_quantum_expired s core_id time).1.scheme = scheme_t.RR := by
    simp only [scheduler_quantum_expired]
    rw [htarget, hrm]
    rw [(assignFirstWaiting_frame _ core_id time).2.2.1]
    exact hscheme
  refine ⟨hkey, ?_, ?_⟩
  · rw [hkey]
    exact List.getLast?_concat _
  · intro jn t2 rt2 pr2
    exact scheduler_new_job_queue_rr _ jn t2 rt2 pr2 hsch2

/-- The two-core RR state with jobs 0 and 1 running on cores 0 and 1 and
job 2 waiting (arrivals at times 0, 1, 2), used to witness C8. -/
def rrDemo : SchedState :=
  (scheduler_new_job
    (scheduler_new_job
      (scheduler_new_job (scheduler_start_up 2 scheme_t.RR) 0 0 5 0).1
      1 1 5 0).1
    2 2 5 0).1

/-- Instance of rr_requeue_contract: quantum expiry on core 0 at time 3
requeues job 0 behind the waiting job 2, and a later arrival lands behind
job 0. -/
theorem rr_requeue_contract_example :
    (scheduler_quantum_expired rrDemo 0 3).1.queue = ([] ++ [1, 2]) ++ [0] ∧
    (scheduler_quantum_expired rrDemo 0 3).1.queue.getLast? = some 0 ∧
    (scheduler_new_job (scheduler_quantum_expired rrDemo 0 3).1 3 5 4 0).1.queue =
      (scheduler_quantum_expired rrDemo 0 3).1.queue ++
        [(scheduler_quantum_expired rrDemo 0 3).1.nextAddr] := by
  obtain ⟨h1, h2, h3⟩ := rr_requeue_contract rrDemo 0 3 0 [] [1, 2]
    (by decide) (by decide) (by decide) (by decide)
  exact ⟨h1, h2, h3 3 5 4 0⟩

/-! ## Claim C6: the job/core partition invariant -/

lemma getSlot_lt {s : SchedState} {i a : Nat} (h : getSlot s i = some a) :
    i < s.core_arr.length := by
  by_contra hlt
  rw [getSlot_oob s i (by omega)] at h
  cases h

/-- The structural invariant maintained by every event handler: live
addresses are below the allocator, the queue has no duplicate addresses and
no duplicate job ids, every occupied core slot holds a live job whose
`core_number` points back at the slot, and every live job marked running is
held by the slot its `core_number` names. -/
structure SchedInv (s : SchedState) : Prop where
  queueBound : ∀ a ∈ s.queue, a < s.nextAddr
  queueNodup : s.queue.Nodup
  idsNodup : (s.queue.map fun a => (s.jobs a).id).Nodup
  slotLive : ∀ i a, getSlot s i = some a →
    a ∈ s.queue ∧ (s.jobs a).core_number = (i : Int)
  running : ∀ a ∈ s.queue, (s.jobs a).core_number ≠ -1 →
    ∃ i, i < s.core_arr.length ∧ (s.jobs a).core_number = (i : Int) ∧
      getSlot s i = some a

/-- Claim C6's partition property: each live job is either waiting
(`core_number` = -1, held by no slot) or running on exactly one valid core
whose slot refers back to it. -/
def jobPartition (s : SchedState) : Prop :=
  ∀ a ∈ s.queue,
    ((s.jobs a).core_number = -1 ∧ ∀ i, getSlot s i ≠ some a) ∨
    (∃ i, i < s.core_arr.length ∧ (s.jobs a).core_number = (i : Int) ∧
      getSlot s i = some a ∧ ∀ j, getSlot s j = some a → j = i)

lemma SchedInv.slot_unique {s : SchedState} (h : SchedInv s) {i j a : Nat}
    (hi : getSlot s i = some a) (hj : getSlot s j = some a) : i = j := by
  have h1 := (h.slotLive i a hi).2
  have h2 := (h.slotLive j a hj).2
  rw [h1] at h2
  omega

lemma SchedInv.partition {s : SchedState} (h : SchedInv s) : jobPartition s := by
  intro a ha
  by_cases hw : (s.jobs a).core_number = -1
  · left
    refine ⟨hw, ?_⟩
    intro i hi
    have := (h.slotLive i a hi).2
    omega
  · right
    obtain ⟨i, hlen, hceq, hsl⟩ := h.running a ha hw
    exact ⟨i, hlen, hceq, hsl, fun j hj => h.slot_unique hj hsl⟩

/-- The event sequences permitted by the driver contract (spec sections 4.2,
5 and 7): one `start_up` with a positive core count, arrivals carrying
globally unique ids, completions naming the job actually running on the
addressed core, and quantum expiries addressing an occupied core. -/
inductive Reachable : SchedState → Prop where
  | init (cores : Nat) (scheme : scheme_t) (h : 0 < cores) :
      Reachable (scheduler_start_up cores scheme)
  | newJob {s : SchedState} (hs : Reachable s) (jn t rt pr : Int)
      (hfresh : ∀ a ∈ s.queue, (s.jobs a).id ≠ jn) :
      Reachable (scheduler_new_job s jn t rt pr).1
  | jobFinished {s : SchedState} (hs : Reachable s) (core_id : Nat) (jn t : Int)
      (a : Nat) (hslot : getSlot s core_id = some a) (hid : (s.jobs a).id = jn) :
      Reachable (scheduler_job_finished s core_id jn t).1
  | quantumExpired {s : SchedState} (hs : Reachable s) (core_id : Nat) (t : Int)
      (a : Nat) (hslot : getSlot s core_id = some a) :
      Reachable (scheduler_quantum_expired s core_id t).1

lemma schedInv_init (cores : Nat) (scheme : scheme_t) :
    SchedInv (scheduler_start_up cores scheme) := by
  constructor
  · intro a ha; cases ha
  · exact List.nodup_nil
  · exact List.nodup_nil
  · intro i a h
    rw [show getSlot (scheduler_start_up cores scheme) i =
        (List.replicate cores (none : Option Nat)).getD i none from rfl,
      getD_replicate_none] at h
    cases h
  · intro a ha; cases ha

/-- The PPRI victim scan stays within the core table. -/
lemma ppriScan_lt (s : SchedState) (h : 0 < s.core_arr.length) :
    (ppriScan s).2 < s.core_arr.length := by
  have aux : ∀ n, 1 ≤ n →
      ((List.range n).foldl (ppriScanStep s) ((slotJob s 0).priority, 0)).2 < n := by
    intro n hn
    induction n, hn using Nat.le_induction with
    | base =>
      have h01 : List.range 1 = [0] := rfl
      rw [h01, List.foldl_cons, List.foldl_nil]
      rw [show ppriScanStep s ((slotJob s 0).priority, 0) 0 =
          ((slotJob s 0).priority, 0) from by simp [ppriScanStep]]
      omega
    | succ n hn ih =>
      rw [List.range_succ, List.foldl_append, List.foldl_cons, List.foldl_nil]
      set r := (List.range n).foldl (ppriScanStep s) ((slotJob s 0).priority, 0) with hr
      by_cases h1 : (slotJob s n).priority = r.1 ∧
          (slotJob s n).start_time > (slotJob s r.2).start_time
      · rw [show ppriScanStep s r n = ((slotJob s n).priority, n) from by
          simp [ppriScanStep, h1]]
        omega
      · by_cases h2 : (slotJob s n).priority > r.1
        · rw [show ppriScanStep s r n = ((slotJob s n).priority, n) from by
            simp only [ppriScanStep, if_neg h1, if_pos h2]]
          omega
        · rw [show ppriScanStep s r n = r from by
            simp only [ppriScanStep, if_neg h1, if_neg h2]]
          omega
  exact aux s.core_arr.length h

/-- Starting the waiting job `a` on the empty core `i` — overwriting its
record with `j2` (which runs on `i` and keeps its id) and pointing slot `i`
at it — preserves the invariant. -/
lemma schedInv_assign_core (s : SchedState) (hinv : SchedInv s) (a i : Nat)
    (ha : a ∈ s.queue) (hwait : (s.jobs a).core_number = -1)
    (hi : i < s.core_arr.length) (hempty : getSlot s i = none)
    (j2 : job_t) (hj2core : j2.core_number = (i : Int))
    (hj2id : j2.id = (s.jobs a).id) :
    SchedInv { setJob s a j2 with
        core_arr := (setJob s a j2).core_arr.set i (some a) } := by
  classical
  set S : SchedState := { setJob s a j2 with
      core_arr := (setJob s a j2).core_arr.set i (some a) } with hS
  have hSqueue : S.queue = s.queue := rfl
  have hSnext : S.nextAddr = s.nextAddr := rfl
  have hSjobs_ne : ∀ b, b ≠ a → S.jobs b = s.jobs b := by
    intro b hb
    show Function.update s.jobs a j2 b = s.jobs b
    exact Function.update_noteq hb _ _
  have hSjobs_a : S.jobs a = j2 := by
    show Function.update s.jobs a j2 a = j2
    exact Function.update_same _ _ _
  have hSlen : S.core_arr.length = s.core_arr.length := by
    simp [hS, setJob]
  have hSslot_i : getSlot S i = some a := by
    show ((setJob s a j2).core_arr.set i (some a)).getD i none = some a
    exact getD_set_self _ (by simpa [setJob] using hi) _
  have hSslot_ne : ∀ j, j ≠ i → getSlot S j = getSlot s j := by
    intro j hj
    show ((setJob s a j2).core_arr.set i (some a)).getD j none = _
    rw [getD_set_ne _ (Ne.symm hj) _]
    rfl
  constructor
  · intro b hb
    rw [hSnext]
    exact hinv.queueBound b (hSqueue ▸ hb)
  · rw [hSqueue]
    exact hinv.queueNodup
  · have hids : (fun b => (S.jobs b).id) = fun b => (s.jobs b).id := by
      funext b
      by_cases hb : b = a
      · subst hb
        rw [hSjobs_a, hj2id]
      · rw [hSjobs_ne b hb]
    rw [hSqueue, hids]
    exact hinv.idsNodup
  · intro k b hkb
    by_cases hk : k = i
    · subst hk
      rw [hSslot_i] at hkb
      cases hkb
      refine ⟨hSqueue ▸ ha, ?_⟩
      rw [hSjobs_a, hj2core]
    · rw [hSslot_ne k hk] at hkb
      obtain ⟨hbq, hbc⟩ := hinv.slotLive k b hkb
      have hba : b ≠ a := by
        intro hh
        subst hh
        rw [hwait] at hbc
        omega
      refine ⟨hSqueue ▸ hbq, ?_⟩
      rw [hSjobs_ne b hba]
      exact hbc
  · intro b hb hbc
    by_cases hba : b = a
    · subst hba
      refine ⟨i, by rw [hSlen]; exact hi, ?_, hSslot_i⟩
      rw [hSjobs_a, hj2core]
    · rw [hSjobs_ne b hba] at hbc
      obtain ⟨k, hklen, hkc, hks⟩ := hinv.running b (hSqueue ▸ hb) hbc
      have hki : k ≠ i := by
        intro hh
        subst hh
        rw [hempty] at hks
        cases hks
      refine ⟨k, by rw [hSlen]; exact hklen, ?_, ?_⟩
      · rw [hSjobs_ne b hba]
        exact hkc
      · rw [hSslot_ne k hki]
        exact hks

/-- The assignment scan preserves the invariant when the addressed slot is
in range and empty. -/
lemma schedInv_assignFirstWaiting (s : SchedState) (hinv : SchedInv s)
    (core_id : Nat) (time : Int) (hcid : core_id < s.core_arr.length)
    (hempty : getSlot s core_id = none) :
    SchedInv (assignFirstWaiting s core_id time).1 := by
  cases hf : s.queue.find? (fun a => (s.jobs a).core_number == -1) with
  | none =>
    have hres : assignFirstWaiting s core_id time = (s, -1) := by
      unfold assignFirstWaiting
      rw [hf]
    rw [hres]
    exact hinv
  | some a =>
    have ha : a ∈ s.queue := List.mem_of_find?_eq_some hf
    have haw : (s.jobs a).core_number = -1 := by
      have := List.find?_some hf
      simpa using this
    set j2 : job_t := { s.jobs a with
        core_number := (core_id : Int)
        start_time := if (s.jobs a).start_time = -1 then time
                      else (s.jobs a).start_time
        last_updated_time := time } with hj2
    have hres : assignFirstWaiting s core_id time =
        ({ setJob s a j2 with
            core_arr := (setJob s a j2).core_arr.set core_id (some a) },
         (s.jobs a).id) := by
      unfold assignFirstWaiting
      rw [hf]
    rw [hres]
    exact schedInv_assign_core s hinv a core_id ha haw hcid hempty j2 rfl rfl

/-- Evicting the job `e` running on core `v` (its record becomes `j_e`,
waiting, same id) and starting the waiting job `a` there (record `j_a`,
running on `v`, same id) preserves the invariant. -/
lemma schedInv_preempt_core (s : SchedState) (hinv : SchedInv s) (a v e : Nat)
    (ha : a ∈ s.queue) (hwait : (s.jobs a).core_number = -1)
    (hv : v < s.core_arr.length) (he : getSlot s v = some e)
    (j_e j_a : job_t) (hje_core : j_e.core_number = -1)
    (hje_id : j_e.id = (s.jobs e).id)
    (hja_core : j_a.core_number = (v : Int)) (hja_id : j_a.id = (s.jobs a).id) :
    SchedInv { setJob (setJob s e j_e) a j_a with
        core_arr := (setJob (setJob s e j_e) a j_a).core_arr.set v (some a) } := by
  classical
  have hec : (s.jobs e).core_number = (v : Int) := (hinv.slotLive v e he).2
  have hea : e ≠ a := by
    intro hh
    subst hh
    rw [hwait] at hec
    omega
  set S : SchedState := { setJob (setJob s e j_e) a j_a with
      core_arr := (setJob (setJob s e j_e) a j_a).core_arr.set v (some a) } with hS
  have hSqueue : S.queue = s.queue := rfl
  have hSnext : S.nextAddr = s.nextAddr := rfl
  have hSjobs_a : S.jobs a = j_a := by
    show Function.update (Function.update s.jobs e j_e) a j_a a = j_a
    exact Function.update_same _ _ _
  have hSjobs_e : S.jobs e = j_e := by
    show Function.update (Function.update s.jobs e j_e) a j_a e = j_e
    rw [Function.update_noteq hea, Function.update_same]
  have hSjobs_ne : ∀ b, b ≠ a → b ≠ e → S.jobs b = s.jobs b := by
    intro b hba hbe
    show Function.update (Function.update s.jobs e j_e) a j_a b = s.jobs b
    rw [Function.update_noteq hba, Function.update_noteq hbe]
  have hSlen : S.core_arr.length = s.core_arr.length := by
    simp [hS, setJob]
  have hSslot_v : getSlot S v = some a := by
    show ((setJob (setJob s e j_e) a j_a).core_arr.set v (some a)).getD v none = some a
    exact getD_set_self _ (by simpa [setJob] using hv) _
  have hSslot_ne : ∀ j, j ≠ v → getSlot S j = getSlot s j := by
    intro j hj
    show ((setJob (setJob s e j_e) a j_a).core_arr.set v (some a)).getD j none = _
    rw [getD_set_ne _ (Ne.symm hj) _]
    rfl
  constructor
  · intro b hb
    rw [hSnext]
    exact hinv.queueBound b (hSqueue ▸ hb)
  · rw [hSqueue]
    exact hinv.queueNodup
  · have hids : (fun b => (S.jobs b).id) = fun b => (s.jobs b).id := by
      funext b
      by_cases hba : b = a
      · subst hba
        rw [hSjobs_a, hja_id]
      · by_cases hbe : b = e
        · subst hbe
          rw [hSjobs_e, hje_id]
        · rw [hSjobs_ne b hba hbe]
    rw [hSqueue, hids]
    exact hinv.idsNodup
  · intro k b hkb
    by_cases hk : k = v
    · subst hk
      rw [hSslot_v] at hkb
      cases hkb
      refine ⟨hSqueue ▸ ha, ?_⟩
      rw [hSjobs_a, hja_core]
    · rw [hSslot_ne k hk] at hkb
      obtain ⟨hbq, hbc⟩ := hinv.slotLive k b hkb
      have hba : b ≠ a := by
        intro hh
        subst hh
        rw [hwait] at hbc
        omega
      have hbe : b ≠ e := by
        intro hh
        subst hh
        rw [hec] at hbc
        have : k = v := by omega
        exact hk this
      refine ⟨hSqueue ▸ hbq, ?_⟩
      rw [hSjobs_ne b hba hbe]
      exact hbc
  · intro b hb hbc
    by_cases hba : b = a
    · subst hba
      refine ⟨v, by rw [hSlen]; exact hv, ?_, hSslot_v⟩
      rw [hSjobs_a, hja_core]
    · by_cases hbe : b = e
      · subst hbe
        rw [hSjobs_e, hje_core] at hbc
        exact absurd rfl hbc
      · rw [hSjobs_ne b hba hbe] at hbc
        obtain ⟨k, hklen, hkc, hks⟩ := hinv.running b (hSqueue ▸ hb) hbc
        have hkv : k ≠ v := by
          intro hh
          subst hh
          rw [he] at hks
          cases hks
          exact hbe rfl
        refine ⟨k, by rw [hSlen]; exact hklen, ?_, ?_⟩
        · rw [hSjobs_ne b hba hbe]
          exact hkc
        · rw [hSslot_ne k hkv]
          exact hks

/-- `preemptAssign` preserves the invariant when called on a waiting live
job `a` and an occupied core `v`. -/
lemma schedInv_preemptAssign (s1 : SchedState) (inv1 : SchedInv s1) (a v : Nat)
    (time : Int) (ha : a ∈ s1.queue) (hwait : (s1.jobs a).core_number = -1)
    (hv : v < s1.core_arr.length) (e : Nat) (he : getSlot s1 v = some e) :
    SchedInv (preemptAssign s1 a v time).1 := by
  classical
  have hec : (s1.jobs e).core_number = (v : Int) := (inv1.slotLive v e he).2
  have hea : a ≠ e := by
    intro hh
    subst hh
    rw [hwait] at hec
    omega
  have htarget : (getSlot s1 v).getD 0 = e := by rw [he]; rfl
  set j_e : job_t := { s1.jobs e with
      core_number := -1
      start_time := if (s1.jobs e).start_time = time then -1
                    else (s1.jobs e).start_time } with hje
  set j_a : job_t := { s1.jobs a with
      core_number := (v : Int)
      start_time := time
      last_updated_time := time } with hja2
  have hres : (preemptAssign s1 a v time).1 =
      { setJob (setJob s1 e j_e) a j_a with
          core_arr := (setJob (setJob s1 e j_e) a j_a).core_arr.set v (some a) } := by
    unfold preemptAssign
    rw [htarget]
    simp only [setJob]
    rw [Function.update_noteq hea]
  rw [hres]
  exact schedInv_preempt_core s1 inv1 a v e ha hwait hv he j_e j_a rfl rfl rfl rfl

lemma jobSkel_id {j k : job_t} (h : jobSkel j = jobSkel k) : j.id = k.id := by
  have := congrArg (fun x => x.1) h
  simpa [jobSkel] using this

lemma jobSkel_core_number {j k : job_t} (h : jobSkel j = jobSkel k) :
    j.core_number = k.core_number := by
  have := congrArg (fun x => x.2.2.2.2.1) h
  simpa [jobSkel] using this

/-- The first phase of an arrival with a globally fresh id preserves the
invariant; the new job is live and waiting afterwards. -/
lemma schedInv_phase1 (s : SchedState) (hinv : SchedInv s) (jn t rt pr : Int)
    (hfresh : ∀ a ∈ s.queue, (s.jobs a).id ≠ jn) :
    SchedInv (scheduler_new_job_phase1 s jn t rt pr).1 ∧
    s.nextAddr ∈ (scheduler_new_job_phase1 s jn t rt pr).1.queue ∧
    ((scheduler_new_job_phase1 s jn t rt pr).1.jobs s.nextAddr).core_number = -1 := by
  have hsl : ∀ i b, getSlot s i = some b → b < s.nextAddr := fun i b h =>
    hinv.queueBound b (hinv.slotLive i b h).1
  obtain ⟨l1, l2, hq, hq1, hca, hna, hsch, hja, hskel, hpure⟩ :=
    phase1_spec s jn t rt pr hsl
  set P := (scheduler_new_job_phase1 s jn t rt pr).1 with hP
  have hmem : s.nextAddr ∈ P.queue := by
    rw [hq1]
    exact List.mem_append_right _ (List.mem_cons_self _ _)
  have hwait : (P.jobs s.nextAddr).core_number = -1 := by
    rw [hja]
    rfl
  refine ⟨?_, hmem, hwait⟩
  have hsub : ∀ b, b ∈ l1 ++ l2 → b ∈ s.queue := by
    intro b hb
    rw [hq]
    exact hb
  have hbound : ∀ b ∈ l1 ++ l2, b < s.nextAddr := fun b hb =>
    hinv.queueBound b (hsub b hb)
  have hnewmem : s.nextAddr ∉ l1 ++ l2 := by
    intro hmem2
    have := hbound _ hmem2
    omega
  have hperm : P.queue.Perm (s.nextAddr :: (l1 ++ l2)) := by
    rw [hq1]
    exact List.perm_middle
  have hPs : ∀ i, getSlot P i = getSlot s i := by
    intro i
    rw [getSlot, getSlot, hca]
  constructor
  · intro b hb
    rw [hna]
    rcases List.mem_cons.1 ((hperm.mem_iff).1 hb) with hb1 | hb2
    · omega
    · have := hbound b hb2
      omega
  · rw [hperm.nodup_iff]
    refine List.nodup_cons.2 ⟨hnewmem, ?_⟩
    rw [← hq]
    exact hinv.queueNodup
  · have hmapeq : (l1 ++ l2).map (fun b => (P.jobs b).id) =
        (l1 ++ l2).map (fun b => (s.jobs b).id) := by
      apply List.map_congr_left
      intro b hb
      have hbne : b ≠ s.nextAddr := by
        have := hbound b hb
        omega
      exact jobSkel_id (hskel b hbne)
    have hnodup0 : ((l1 ++ l2).map fun b => (s.jobs b).id).Nodup := by
      have h0 := hinv.idsNodup
      rw [hq] at h0
      exact h0
    have hjnnot : jn ∉ (l1 ++ l2).map fun b => (s.jobs b).id := by
      intro hmem3
      obtain ⟨b, hb, hbid⟩ := List.mem_map.1 hmem3
      exact hfresh b (hsub b hb) hbid
    have hfnew : (P.jobs s.nextAddr).id = jn := by
      rw [hja]
      rfl
    rw [(hperm.map _).nodup_iff, List.map_cons, hfnew, hmapeq]
    exact List.nodup_cons.2 ⟨hjnnot, hnodup0⟩
  · intro i b hib
    rw [hPs i] at hib
    obtain ⟨hbq, hbc⟩ := hinv.slotLive i b hib
    have hbne : b ≠ s.nextAddr := by
      have := hinv.queueBound b hbq
      omega
    refine ⟨(hperm.mem_iff).2 (List.mem_cons_of_mem _ (hq ▸ hbq)), ?_⟩
    rw [jobSkel_core_number (hskel b hbne)]
    exact hbc
  · intro b hb hbc
    rcases List.mem_cons.1 ((hperm.mem_iff).1 hb) with hb1 | hb2
    · subst hb1
      exact absurd hwait hbc
    · have hbne : b ≠ s.nextAddr := by
        have := hbound b hb2
        omega
      rw [jobSkel_core_number (hskel b hbne)] at hbc
      obtain ⟨k, hklen, hkc, hks⟩ := hinv.running b (hsub b hb2) hbc
      refine ⟨k, by rw [hca]; exact hklen, ?_, ?_⟩
      · rw [jobSkel_core_number (hskel b hbne)]
        exact hkc
      · rw [hPs k]
        exact hks

/-- The second phase of an arrival preserves the invariant whenever the
offered job is live and waiting. -/
lemma schedInv_phase2 (s1 : SchedState) (inv1 : SchedInv s1) (a : Nat)
    (ha : a ∈ s1.queue) (hwait : (s1.jobs a).core_number = -1)
    (index : Nat) (time : Int) :
    SchedInv (scheduler_new_job_phase2 s1 a index time).1 := by
  unfold scheduler_new_job_phase2
  by_cases hr : index < s1.core_arr.length
  · rw [if_pos hr]
    cases hfe : firstEmptyAux s1.core_arr 0 with
    | some i =>
      obtain ⟨_, hlen, hgd⟩ := firstEmptyAux_eq_some s1.core_arr 0 i hfe
      rw [Nat.sub_zero] at hlen hgd
      exact schedInv_assign_core s1 inv1 a i ha hwait hlen hgd _ rfl rfl
    | none =>
      have hbusy : ∀ j < s1.core_arr.length, getSlot s1 j ≠ none :=
        (firstEmptyAux_eq_none_iff s1.core_arr 0).1 hfe
      have h0 : 0 < s1.core_arr.length := by omega
      cases hsch : s1.scheme with
      | PSJF =>
        show SchedInv (if (psjfScan s1).1 > (s1.jobs a).remaining_time
            then preemptAssign s1 a (psjfScan s1).2 time else (s1, -1)).1
        by_cases hcond : (psjfScan s1).1 > (s1.jobs a).remaining_time
        · rw [if_pos hcond]
          have hv := (psjfScan_spec s1 h0).1
          cases he : getSlot s1 (psjfScan s1).2 with
          | none => exact absurd he (hbusy _ hv)
          | some e => exact schedInv_preemptAssign s1 inv1 a _ time ha hwait hv e he
        · rw [if_neg hcond]
          exact inv1
      | PPRI =>
        show SchedInv (if (ppriScan s1).1 > (s1.jobs a).priority
            then preemptAssign s1 a (ppriScan s1).2 time else (s1, -1)).1
        by_cases hcond : (ppriScan s1).1 > (s1.jobs a).priority
        · rw [if_pos hcond]
          have hv := ppriScan_lt s1 h0
          cases he : getSlot s1 (ppriScan s1).2 with
          | none => exact absurd he (hbusy _ hv)
          | some e => exact schedInv_preemptAssign s1 inv1 a _ time ha hwait hv e he
        · rw [if_neg hcond]
          exact inv1
      | FCFS => exact inv1
      | SJF => exact inv1
      | PRI => exact inv1
      | RR => exact inv1
  · rw [if_neg hr]
    exact inv1

/-- A fresh-id arrival preserves the invariant. -/
lemma schedInv_new_job (s : SchedState) (hinv : SchedInv s) (jn t rt pr : Int)
    (hfresh : ∀ a ∈ s.queue, (s.jobs a).id ≠ jn) :
    SchedInv (scheduler_new_job s jn t rt pr).1 := by
  obtain ⟨inv1, hmem, hwait⟩ := schedInv_phase1 s hinv jn t rt pr hfresh
  exact schedInv_phase2 _ inv1 _ hmem hwait _ t

/-- Splitting a live job out of the queue: under the invariant, every other
entry carries a different id. -/
lemma ids_split (s : SchedState) (hinv : SchedInv s) (af : Nat)
    (haf : af ∈ s.queue) :
    ∃ l1 l2, s.queue = l1 ++ af :: l2 ∧ af ∉ l1 ++ l2 ∧
      (∀ b ∈ l1, (s.jobs b).id ≠ (s.jobs af).id) ∧
      (∀ b ∈ l2, (s.jobs b).id ≠ (s.jobs af).id) := by
  obtain ⟨l1, l2, hq⟩ := List.append_of_mem haf
  have hids := hinv.idsNodup
  rw [hq, List.map_append, List.map_cons] at hids
  have hnotin : (s.jobs af).id ∉
      (l1.map fun b => (s.jobs b).id) ++ (l2.map fun b => (s.jobs b).id) :=
    (List.nodup_cons.1 (List.nodup_middle.1 hids)).1
  refine ⟨l1, l2, hq, ?_, ?_, ?_⟩
  · have hnd := hinv.queueNodup
    rw [hq] at hnd
    exact (List.nodup_cons.1 (List.nodup_middle.1 hnd)).1
  · intro b hb heq
    exact hnotin (List.mem_append_left _ (heq ▸ List.mem_map_of_mem _ hb))
  · intro b hb heq
    exact hnotin (List.mem_append_right _ (heq ▸ List.mem_map_of_mem _ hb))

/-- With exactly one id match in the queue, the removal loop of
`scheduler_job_finished` removes exactly that entry. -/
lemma finishRemoveAux_unique (jobs : Nat → job_t) (idv : Int) :
    ∀ (l1 : List Nat) (af : Nat) (l2 : List Nat),
      (∀ b ∈ l1, (jobs b).id ≠ idv) → (jobs af).id = idv →
      (∀ b ∈ l2, (jobs b).id ≠ idv) →
      finishRemoveAux jobs idv (l1 ++ af :: l2) = (l1 ++ l2, [af]) := by
  intro l1
  induction l1 with
  | nil =>
    intro af l2 _ haf h2
    cases l2 with
    | nil =>
      rw [List.nil_append, finishRemoveAux.eq_def]
      simp [haf]
    | cons c rest2 =>
      rw [List.nil_append, finishRemoveAux.eq_def]
      simp only [haf, eq_self_iff_true, if_true]
      rw [finishRemoveAux_no_match jobs idv rest2
        (fun b hb => h2 b (List.mem_cons_of_mem _ hb))]
      rfl
  | cons c rest ih =>
    intro af l2 h haf h2
    have hc : (jobs c).id ≠ idv := h c (List.mem_cons_self _ _)
    rw [List.cons_append, finishRemoveAux.eq_def]
    simp only [if_neg hc, List.append_eq]
    rw [ih af l2 (fun b hb => h b (List.mem_cons_of_mem _ hb)) haf h2]
    rfl

/-- A completion event naming the job actually running on the addressed core
preserves the invariant. -/
lemma schedInv_job_finished (s : SchedState) (hinv : SchedInv s) (core_id : Nat)
    (jn t : Int) (af : Nat) (hslot : getSlot s core_id = some af)
    (hid : (s.jobs af).id = jn) :
    SchedInv (scheduler_job_finished s core_id jn t).1 := by
  classical
  have hcid : core_id < s.core_arr.length := getSlot_lt hslot
  have haf : af ∈ s.queue := (hinv.slotLive core_id af hslot).1
  have hafc : (s.jobs af).core_number = (core_id : Int) :=
    (hinv.slotLive core_id af hslot).2
  obtain ⟨l1, l2, hq, hnotin, h1, h2⟩ := ids_split s hinv af haf
  have hrm : finishRemoveAux s.jobs jn s.queue = (l1 ++ l2, [af]) := by
    rw [hq]
    exact finishRemoveAux_unique s.jobs jn l1 af l2
      (fun b hb => hid ▸ h1 b hb) hid (fun b hb => hid ▸ h2 b hb)
  set S1 : SchedState := { s with
      queue := l1 ++ l2
      core_arr := s.core_arr.set core_id none
      total_waiting_time := s.total_waiting_time +
        ((t : ℚ) - (s.jobs af).arrival_time - (s.jobs af).running_time)
      total_response_time := s.total_response_time +
        (((s.jobs af).start_time : ℚ) - (s.jobs af).arrival_time)
      total_turnaround_time := s.total_turnaround_time +
        ((t : ℚ) - (s.jobs af).arrival_time)
      total_finished_jobs := s.total_finished_jobs + 1 } with hS1
  have hkey : scheduler_job_finished s core_id jn t =
      assignFirstWaiting S1 core_id t := by
    simp only [scheduler_job_finished]
    rw [hrm]
    rfl
  have hsub : ∀ b ∈ l1 ++ l2, b ∈ s.queue := by
    intro b hb
    rw [hq]
    rcases List.mem_append.1 hb with h | h
    · exact List.mem_append_left _ h
    · exact List.mem_append_right _ (List.mem_cons_of_mem _ h)
  have hS1slot_ne : ∀ j, j ≠ core_id → getSlot S1 j = getSlot s j := by
    intro j hj
    show (s.core_arr.set core_id none).getD j none = _
    rw [getD_set_ne _ (Ne.symm hj) _]
    rfl
  have hS1slot_id : getSlot S1 core_id = none := by
    show (s.core_arr.set core_id none).getD core_id none = none
    exact getD_set_self _ hcid _
  have hS1len : S1.core_arr.length = s.core_arr.length := by
    show (s.core_arr.set core_id none).length = _
    rw [List.length_set]
  have hS1inv : SchedInv S1 := by
    constructor
    · intro b hb
      exact hinv.queueBound b (hsub b hb)
    · have hnd := hinv.queueNodup
      rw [hq] at hnd
      exact (List.nodup_cons.1 (List.nodup_middle.1 hnd)).2
    · show ((l1 ++ l2).map fun b => (s.jobs b).id).Nodup
      have hids := hinv.idsNodup
      rw [hq, List.map_append, List.map_cons] at hids
      have hmid := (List.nodup_cons.1 (List.nodup_middle.1 hids)).2
      rw [List.map_append]
      exact hmid
    · intro i b hib
      by_cases hicid : i = core_id
      · subst hicid
        rw [hS1slot_id] at hib
        cases hib
      · rw [hS1slot_ne i hicid] at hib
        obtain ⟨hbq, hbc⟩ := hinv.slotLive i b hib
        have hbaf : b ≠ af := by
          intro hh
          subst hh
          rw [hafc] at hbc
          have : core_id = i := by omega
          exact hicid this.symm
        have hbmem : b ∈ l1 ++ l2 := by
          rw [hq] at hbq
          rcases List.mem_append.1 hbq with h | h
          · exact List.mem_append_left _ h
          · rcases List.mem_cons.1 h with h' | h'
            · exact absurd h' hbaf
            · exact List.mem_append_right _ h'
        exact ⟨hbmem, hbc⟩
    · intro b hb hbc
      have hbaf : b ≠ af := by
        intro hh
        subst hh
        exact hnotin hb
      obtain ⟨k, hklen, hkc, hks⟩ := hinv.running b (hsub b hb) hbc
      have hkcid : k ≠ core_id := by
        intro hh
        subst hh
        rw [hslot] at hks
        cases hks
        exact hbaf rfl
      refine ⟨k, by rw [hS1len]; exact hklen, hkc, ?_⟩
      rw [hS1slot_ne k hkcid]
      exact hks
  rw [hkey]
  exact schedInv_assignFirstWaiting S1 hS1inv core_id t
    (by rw [hS1len]; exact hcid) hS1slot_id

/-- A quantum expiry addressing an occupied core preserves the invariant. -/
lemma schedInv_quantum (s : SchedState) (hinv : SchedInv s) (core_id : Nat)
    (t : Int) (a : Nat) (hslot : getSlot s core_id = some a) :
    SchedInv (scheduler_quantum_expired s core_id t).1 := by
  classical
  have hcid : core_id < s.core_arr.length := getSlot_lt hslot
  have ha : a ∈ s.queue := (hinv.slotLive core_id a hslot).1
  have hac : (s.jobs a).core_number = (core_id : Int) :=
    (hinv.slotLive core_id a hslot).2
  obtain ⟨l1, l2, hq, hnotin, h1, h2⟩ := ids_split s hinv a ha
  have htarget : (getSlot s core_id).getD 0 = a := by rw [hslot]; rfl
  have hrm : removeFirstById s.jobs (s.jobs a).id s.queue = (l1 ++ l2, some a) := by
    rw [hq]
    exact removeFirstById_split s.jobs _ l1 a l2 h1 rfl
  set j_w : job_t := { s.jobs a with core_number := -1 } with hjw
  set SA : SchedState := setJob { s with queue := l1 ++ l2 } a j_w with hSA
  set SB : SchedState := { SA with core_arr := SA.core_arr.set core_id none } with hSB
  set S2 : SchedState :=
    { SB with queue := (offerAux (comparerOf SB.scheme) SB.jobs a SB.queue).1 } with hS2
  have hkey : scheduler_quantum_expired s core_id t =
      assignFirstWaiting S2 core_id t := by
    simp only [scheduler_quantum_expired]
    rw [htarget, hrm]
  obtain ⟨m1, m2, hm, hoff⟩ := scanInsert_split
    (fun b => comparerOf SB.scheme (SB.jobs b) (SB.jobs a) < 0) a SB.queue
  have hm' : l1 ++ l2 = m1 ++ m2 := hm
  have hq2 : S2.queue = m1 ++ a :: m2 := hoff
  have hqperm : S2.queue.Perm s.queue := by
    rw [hq2, hq]
    have p1 : (m1 ++ a :: m2).Perm (a :: (m1 ++ m2)) := List.perm_middle
    rw [← hm'] at p1
    exact p1.trans List.perm_middle.symm
  have hS2jobs_a : S2.jobs a = j_w := by
    show Function.update s.jobs a j_w a = j_w
    exact Function.update_same _ _ _
  have hS2jobs_ne : ∀ b, b ≠ a → S2.jobs b = s.jobs b := by
    intro b hb
    show Function.update s.jobs a j_w b = s.jobs b
    exact Function.update_noteq hb _ _
  have hS2len : S2.core_arr.length = s.core_arr.length := by
    show (s.core_arr.set core_id none).length = _
    rw [List.length_set]
  have hS2slot_id : getSlot S2 core_id = none := by
    show (s.core_arr.set core_id none).getD core_id none = none
    exact getD_set_self _ hcid _
  have hS2slot_ne : ∀ j, j ≠ core_id → getSlot S2 j = getSlot s j := by
    intro j hj
    show (s.core_arr.set core_id none).getD j none = _
    rw [getD_set_ne _ (Ne.symm hj) _]
    rfl
  have hS2inv : SchedInv S2 := by
    constructor
    · intro b hb
      exact hinv.queueBound b (hqperm.mem_iff.1 hb)
    · exact hqperm.nodup_iff.2 hinv.queueNodup
    · have hids : (fun b => (S2.jobs b).id) = fun b => (s.jobs b).id := by
        funext b
        by_cases hb : b = a
        · subst hb
          rw [hS2jobs_a]
        · rw [hS2jobs_ne b hb]
      rw [hids]
      exact (hqperm.map _).nodup_iff.2 hinv.idsNodup
    · intro k b hkb
      by_cases hk : k = core_id
      · subst hk
        rw [hS2slot_id] at hkb
        cases hkb
      · rw [hS2slot_ne k hk] at hkb
        obtain ⟨hbq, hbc⟩ := hinv.slotLive k b hkb
        have hba : b ≠ a := by
          intro hh
          subst hh
          rw [hac] at hbc
          have : core_id = k := by omega
          exact hk this.symm
        refine ⟨hqperm.mem_iff.2 hbq, ?_⟩
        rw [hS2jobs_ne b hba]
        exact hbc
    · intro b hb hbc
      by_cases hba : b = a
      · subst hba
        rw [hS2jobs_a] at hbc
        exact absurd rfl hbc
      · rw [hS2jobs_ne b hba] at hbc
        obtain ⟨k, hklen, hkc, hks⟩ := hinv.running b (hqperm.mem_iff.1 hb) hbc
        have hkcid : k ≠ core_id := by
          intro hh
          subst hh
          rw [hslot] at hks
          cases hks
          exact hba rfl
        refine ⟨k, by rw [hS2len]; exact hklen, ?_, ?_⟩
        · rw [hS2jobs_ne b hba]
          exact hkc
        · rw [hS2slot_ne k hkcid]
          exact hks
  rw [hkey]
  exact schedInv_assignFirstWaiting S2 hS2inv core_id t
    (by rw [hS2len]; exact hcid) hS2slot_id

/-- Every state reachable under the driver contract satisfies the
invariant. -/
lemma schedInv_reachable : ∀ {s : SchedState}, Reachable s → SchedInv s := by
  intro s h
  induction h with
  | init cores scheme h => exact schedInv_init cores scheme
  | newJob hs jn t rt pr hfresh ih => exact schedInv_new_job _ ih jn t rt pr hfresh
  | jobFinished hs core_id jn t a hslot hid ih =>
    exact schedInv_job_finished _ ih core_id jn t a hslot hid
  | quantumExpired hs core_id t a hslot ih =>
    exact schedInv_quantum _ ih core_id t a hslot

/-- In every state reachable through the event handlers under the driver
contract, WITH the store removal yielding the stored job (its documented
and tested contract, against which the handler loops are written), each
live job is either waiting (`core_number` none, held by no core slot) or
running on exactly one valid core whose core-table slot refers back to it.
The shipped `priqueue_remove_at` returns the node instead, and
`quantumRequeuePtr` shows how that breaks this partition at the first RR
quantum expiry. -/
theorem partition_invariant_contract (s : SchedState) (h : Reachable s) :
    jobPartition s :=
  (schedInv_reachable h).partition

/-- Instance of partition_invariant_contract: the state reached after
start-up with two PPRI cores and one arrival. -/
theorem partition_invariant_contract_example :
    jobPartition (scheduler_new_job (scheduler_start_up 2 scheme_t.PPRI) 0 0 10 5).1 :=
  partition_invariant_contract _
    (Reachable.newJob (Reachable.init 2 scheme_t.PPRI (by decide)) 0 0 10 5
      (by decide))

/-- Claim C8.  The code run at the failing input: under RR the store holds
the expired core's job (pointer `jobPtr 0`, found by the id search at rank
0) and one waiting job (`jobPtr 1`).  `quantumRequeuePtr` — the shipped
pointer-level requeue of libscheduler.c lines 447-455 — leaves the store as
`[jobPtr 1, nodePtr (jobPtr 0)]`: the payload at the back is the removed
NODE's pointer, and the evicted job's own pointer is no longer a payload of
the store at all, so the removed job is NOT re-inserted behind the waiting
jobs as the claim requires. -/
theorem C8_code_eval :
    quantumRequeuePtr [node_t.mk (CPtr.jobPtr 0), node_t.mk (CPtr.jobPtr 1)] 0 =
      [node_t.mk (CPtr.jobPtr 1), node_t.mk (CPtr.nodePtr (CPtr.jobPtr 0))] ∧
    CPtr.jobPtr 0 ∉
      (quantumRequeuePtr [node_t.mk (CPtr.jobPtr 0), node_t.mk (CPtr.jobPtr 1)]
        0).map node_t.data := by
  refine ⟨rfl, by decide⟩

/-- Claim C6.  The code run at the failing input: after the same RR quantum
expiry (`quantumRequeuePtr`, the shipped pointer-level step of
libscheduler.c lines 447-455) the store no longer holds the still-live
evicted job (`jobPtr 0`) while the entry that replaced it is a node
pointer, not a job; since the `core_number = -1` store of line 450 lands
past the node allocation, the evicted job's record still names the core
whose slot was just cleared.  The live job is thus orphaned — neither
waiting in the store nor consistently running — so the partition claimed
after every event handler fails at `scheduler_quantum_expired`. -/
theorem C6_code_eval :
    CPtr.jobPtr 0 ∉
      (quantumRequeuePtr [node_t.mk (CPtr.jobPtr 0), node_t.mk (CPtr.jobPtr 1)]
        0).map node_t.data ∧
    CPtr.nodePtr (CPtr.jobPtr 0) ∈
      (quantumRequeuePtr [node_t.mk (CPtr.jobPtr 0), node_t.mk (CPtr.jobPtr 1)]
        0).map node_t.data := by
  refine ⟨by decide, by decide⟩
